import Mathlib

/-!
Verification development for the `aws_inventory_diagram_generator` repository.

Python strings are modelled as `List Char`, Python lists as `List`, Python
dicts as association lists (insertion order preserved, as CPython does),
JSON-serializable Python values as the inductive `JVal` family, and a Python
function that may raise as a function into `Except` / `Option`.
-/

namespace AwsInv

/-- Python `str`, modelled as a list of characters. -/
abbrev Str := List Char

/-- Coerce a Lean string literal into the model type. -/
def strL (s : String) : Str := s.data

/-! ## ECS client batching (`aws_clients/ecs.py`)

`describe_clusters` / `describe_services` / `describe_tasks` slice the
identifier list into fixed-size chunks (`for i in range(0, len(xs), n):
batch = xs[i:i+n]`) and concatenate the per-call results.  The provider API
is abstracted as a function from one batch to that call's results; each
modelled operation returns the concatenated results together with the list
of batches actually sent (the call trace). -/

/-- The chunks produced by `for i in range(0, len(xs), n): xs[i:i+n]`.
For `n = 0` Python's `range` raises; the model returns `[]` (never used:
the source only calls this with `n` equal to `100` or `10`). -/
def chunks (n : Nat) (xs : List α) : List (List α) :=
  if h : xs.isEmpty ∨ n = 0 then []
  else xs.take n :: chunks n (xs.drop n)
termination_by xs.length
decreasing_by
  simp only [not_or] at h
  have hx : xs ≠ [] := by simpa [List.isEmpty_iff] using h.1
  have hn : 0 < n := Nat.pos_of_ne_zero h.2
  have : 0 < xs.length := List.length_pos.mpr hx
  simp [List.length_drop]
  omega

/-- `ECSClient.describe_clusters` (`aws_clients/ecs.py` lines 28-42):
early-returns `[]` on an empty input, otherwise batches at 100 ids per
call.  Returns `(concatenated results, batches sent)`. -/
def describe_clusters (api : List ι → List β) (cluster_arns : List ι) :
    List β × List (List ι) :=
  if cluster_arns.isEmpty then ([], [])
  else
    let batches := chunks 100 cluster_arns
    ((batches.map api).flatten, batches)

/-- `ECSClient.describe_services` (lines 52-67): batches at 10 ids per call. -/
def describe_services (api : List ι → List β) (service_arns : List ι) :
    List β × List (List ι) :=
  if service_arns.isEmpty then ([], [])
  else
    let batches := chunks 10 service_arns
    ((batches.map api).flatten, batches)

/-- `ECSClient.describe_tasks` (lines 77-92): batches at 100 ids per call. -/
def describe_tasks (api : List ι → List β) (task_arns : List ι) :
    List β × List (List ι) :=
  if task_arns.isEmpty then ([], [])
  else
    let batches := chunks 100 task_arns
    ((batches.map api).flatten, batches)

/-! ## `format_label` (`diagram_generator_detailed.py` lines 64-69,
`diagram_generator_drawio.py` lines 36-39; identical bodies, the detailed
variant has an additional unused `max_lines` parameter). -/

/-- Python slice `s[:k]`, including negative-index semantics. -/
def pySliceTo (s : Str) (k : Int) : Str :=
  if 0 ≤ k then s.take k.toNat
  else s.take (s.length - k.natAbs)

/-- `format_label(name, max_len)`:
`if len(name) <= max_len: return name` else `return name[:max_len-2] + ".."`. -/
def format_label (name : Str) (max_len : Int) : Str :=
  if (name.length : Int) ≤ max_len then name
  else pySliceTo name (max_len - 2) ++ [ '.', '.' ]

/-! ## Python string primitives used by the diagram generators -/

/-- Python `str.lower()` (all strings manipulated by this code base are
treated as ASCII identifiers). -/
def pyLower (s : Str) : Str := s.map Char.toLower

/-- Python `sep.join(parts)`. -/
def pyJoin (sep : Str) (parts : List Str) : Str := (parts.intersperse sep).flatten

/-- Python `sub in s` for strings: contiguous-substring test. -/
def pyIn (sub s : Str) : Bool := decide (sub <:+: s)

/-- Python `s.replace(old, new)`: left-to-right, non-overlapping replacement
of every occurrence of `old` (the source only calls it with non-empty
`old`, for which this scan is Python's semantics). -/
def pyReplace (old new : Str) (s : Str) : Str :=
  match s with
  | [] => []
  | c :: rest =>
    if h : old ≠ [] ∧ old.isPrefixOf (c :: rest) then
      new ++ pyReplace old new ((c :: rest).drop old.length)
    else
      c :: pyReplace old new rest
termination_by s.length
decreasing_by
  · have : 0 < old.length := List.length_pos.mpr h.1
    simp [List.length_drop]
    omega
  · simp

/-- Python `s.split()`: split on whitespace runs, discarding empty tokens. -/
def pySplitWs (s : Str) : List Str :=
  (s.splitOnP (fun c => c.isWhitespace)).filter (fun t => !t.isEmpty)

/-! ## EC2 instance categorization (`diagram_generator_detailed.py` 95-152)

Record types carry exactly the fields that the modelled code reads.  In the
inventory JSON an EC2 instance's `state` and `name` can be `null`
(`VPCCollector._simplify_ec2_instances` stores `None` when the data is
absent), hence those fields are `Option Str`. -/

structure Ec2Instance where
  state : Option Str
  name : Option Str
  tags : List (Str × Str)
deriving DecidableEq

structure EksNodeGroup where
  nodegroup_name : Str
deriving DecidableEq

structure EksCluster where
  cluster_name : Str
  node_groups : List EksNodeGroup
deriving DecidableEq

structure EcsService where
  subnets : List Str
deriving DecidableEq

structure EcsCluster where
  cluster_name : Str
  services : List EcsService
deriving DecidableEq

structure Ec2Categories where
  standalone : List Ec2Instance
  ecs : List Ec2Instance
  eks : List Ec2Instance
deriving DecidableEq

/-- The `eks_patterns` set: lower-cased EKS cluster names and node-group
names (a Python `set`; a list is an equivalent model for the `any`
membership scans that consume it). -/
def eksPatterns (eks_clusters : List EksCluster) : List Str :=
  (eks_clusters.map (fun c =>
    pyLower c.cluster_name :: c.node_groups.map (fun ng => pyLower ng.nodegroup_name))).flatten

/-- The `ecs_patterns` set: lower-cased ECS cluster names. -/
def ecsPatterns (ecs_clusters : List EcsCluster) : List Str :=
  ecs_clusters.map (fun c => pyLower c.cluster_name)

/-- `" ".join(f"{k}={v}" for k, v in tags.items()).lower()`. -/
def allTagsBlob (tags : List (Str × Str)) : Str :=
  pyLower (pyJoin (strL " ") (tags.map (fun kv => kv.1 ++ strL "=" ++ kv.2)))

/-- The `is_eks` test of `categorize_ec2_instances`. -/
def isEksInstance (name all_tags : Str) (eks_pats : List Str) : Bool :=
  pyIn (strL "kubernetes.io") all_tags ||
  pyIn (strL "eks") all_tags ||
  pyIn (strL "karpenter") all_tags ||
  eks_pats.any (fun p => !p.isEmpty && (pyIn p name || pyIn p all_tags))

/-- The `is_ecs` test of `categorize_ec2_instances`. -/
def isEcsInstance (name all_tags : Str) (ecs_pats : List Str) : Bool :=
  pyIn (strL "ecs") all_tags ||
  pyIn (strL "ecs:cluster") all_tags ||
  ecs_pats.any (fun p => !p.isEmpty && pyIn p name)

/-- The per-instance loop of `categorize_ec2_instances`.  An instance whose
`state` is not the string `"running"` is skipped.  For a processed instance
the code runs `instance.get("name", "").lower()`; when the stored `name` is
`None` the `.get` default does not apply (the key is present), so
`None.lower()` raises `AttributeError` — modelled as `.error ()`. -/
def categorizeLoop (eks_pats ecs_pats : List Str) :
    List Ec2Instance → Except Unit Ec2Categories
  | [] => .ok ⟨[], [], []⟩
  | inst :: rest =>
    if inst.state ≠ some (strL "running") then
      categorizeLoop eks_pats ecs_pats rest
    else
      match inst.name with
      | none => .error ()
      | some nm =>
        let name := pyLower nm
        let all_tags := allTagsBlob inst.tags
        match categorizeLoop eks_pats ecs_pats rest with
        | .error e => .error e
        | .ok cats =>
          if isEksInstance name all_tags eks_pats then
            .ok ⟨cats.standalone, cats.ecs, inst :: cats.eks⟩
          else if isEcsInstance name all_tags ecs_pats then
            .ok ⟨cats.standalone, inst :: cats.ecs, cats.eks⟩
          else
            .ok ⟨inst :: cats.standalone, cats.ecs, cats.eks⟩

/-- `categorize_ec2_instances(ec2_instances, ecs_clusters, eks_clusters)`. -/
def categorize_ec2_instances (ec2_instances : List Ec2Instance)
    (ecs_clusters : List EcsCluster) (eks_clusters : List EksCluster) :
    Except Unit Ec2Categories :=
  categorizeLoop (eksPatterns eks_clusters) (ecsPatterns ecs_clusters) ec2_instances

/-- Boolean test: the instance lands in the `eks` bucket. -/
def inEksBucket (eks_pats : List Str) (inst : Ec2Instance) : Bool :=
  inst.state = some (strL "running") &&
    match inst.name with
    | none => false
    | some nm => isEksInstance (pyLower nm) (allTagsBlob inst.tags) eks_pats

/-- Boolean test: the instance lands in the `ecs` bucket. -/
def inEcsBucket (eks_pats ecs_pats : List Str) (inst : Ec2Instance) : Bool :=
  inst.state = some (strL "running") &&
    match inst.name with
    | none => false
    | some nm =>
      !isEksInstance (pyLower nm) (allTagsBlob inst.tags) eks_pats &&
        isEcsInstance (pyLower nm) (allTagsBlob inst.tags) ecs_pats

/-- Boolean test: the instance lands in the `standalone` bucket. -/
def inStandaloneBucket (eks_pats ecs_pats : List Str) (inst : Ec2Instance) : Bool :=
  inst.state = some (strL "running") &&
    match inst.name with
    | none => false
    | some nm =>
      !isEksInstance (pyLower nm) (allTagsBlob inst.tags) eks_pats &&
        !isEcsInstance (pyLower nm) (allTagsBlob inst.tags) ecs_pats

/-! ## VPC name / subnet matching (`diagram_generator_detailed.py`)

`generate_detailed_vpc_diagram` filters ECS clusters into a VPC's diagram
when either a fuzzy name match or a service-subnet match succeeds (lines
198-219); Elastic Beanstalk environments are matched by name only (lines
180-188). -/

/-- `x.lower().replace("-", "").replace("_", "")`. -/
def codeNormalize (s : Str) : Str :=
  pyReplace (strL "_") [] (pyReplace (strL "-") [] (pyLower s))

/-- The `name_match` test for an ECS cluster (lines 203-208). -/
def ecs_name_match (vpc_name cluster_name : Str) : Bool :=
  let vpc_name_lower := codeNormalize vpc_name
  let cluster_name_lower := codeNormalize cluster_name
  pyIn cluster_name_lower vpc_name_lower ||
  pyIn vpc_name_lower cluster_name_lower ||
  (pySplitWs vpc_name_lower).any (fun part => part.length > 3 && pyIn part cluster_name_lower)

/-- The `subnet_match` test (lines 210-214): some service of the cluster
has a placement subnet inside the VPC's subnet-id set. -/
def cluster_subnet_match (vpc_subnet_ids : List Str) (cluster : EcsCluster) : Bool :=
  cluster.services.any (fun svc => svc.subnets.any (fun s => vpc_subnet_ids.contains s))

/-- The `vpc_ecs` filtered list (lines 201-217): keep a cluster when
`name_match or subnet_match`. -/
def vpc_ecs_filter (vpc_name : Str) (vpc_subnet_ids : List Str)
    (ecs_clusters : List EcsCluster) : List EcsCluster :=
  ecs_clusters.filter (fun c =>
    ecs_name_match vpc_name c.cluster_name || cluster_subnet_match vpc_subnet_ids c)

/-- The Beanstalk environment match (lines 183-187):
`vpc_name.lower().replace("-", "") in env_name.replace("-", "") or
 vpc_name.lower().replace("-", "") in app_name.replace("-", "")`, where
`env_name` and `app_name` are already lower-cased by the code. -/
def beanstalk_env_match (vpc_name env_name app_name : Str) : Bool :=
  pyIn (pyReplace (strL "-") [] (pyLower vpc_name))
       (pyReplace (strL "-") [] (pyLower env_name)) ||
  pyIn (pyReplace (strL "-") [] (pyLower vpc_name))
       (pyReplace (strL "-") [] (pyLower app_name))

/-- The fuzzy matcher exactly as the spec describes it (spec §4.2 item 3):
normalize BOTH strings by stripping hyphens, underscores and spaces and
lower-casing; match if either normalized string is a substring of the
other, or if some whitespace-delimited token of the VPC name longer than
3 characters occurs in the candidate name.  Written from the spec's words,
to be compared with the source-derived matchers. -/
def specFuzzyNormalize (s : Str) : Str :=
  (pyLower s).filter (fun c => c ≠ '-' && c ≠ '_' && c ≠ ' ')

def specFuzzyMatch (vpc_name cand : Str) : Bool :=
  let v := specFuzzyNormalize vpc_name
  let c := specFuzzyNormalize cand
  pyIn v c || pyIn c v ||
  (pySplitWs (pyLower vpc_name)).any
    (fun tok => tok.length > 3 && pyIn tok (pyLower cand))

/-- The amended description of the ECS-cluster fuzzy match: both names are
lower-cased and stripped of hyphens and underscores only (spaces are kept);
match if either normalized string is a substring of the other, or if some
whitespace-delimited token of the normalized VPC name longer than 3
characters occurs in the normalized candidate name. -/
def amendedEcsFuzzyMatch (vpc_name cand : Str) : Bool :=
  let v := (pyLower vpc_name).filter (fun c => c ≠ '-' && c ≠ '_')
  let c := (pyLower cand).filter (fun c => c ≠ '-' && c ≠ '_')
  pyIn v c || pyIn c v ||
  (pySplitWs v).any (fun tok => tok.length > 3 && pyIn tok c)

/-- The amended description of the Beanstalk match: both names lower-cased
and stripped of hyphens only; match only when the normalized VPC name is a
substring of the normalized environment name or of the normalized
application name. -/
def amendedBeanstalkMatch (vpc_name env_name app_name : Str) : Bool :=
  let v := (pyLower vpc_name).filter (fun c => c ≠ '-')
  pyIn v ((pyLower env_name).filter (fun c => c ≠ '-')) ||
  pyIn v ((pyLower app_name).filter (fun c => c ≠ '-'))

/-! ## EKS pod lookup (`diagram_generator_detailed.py` lines 348-371) -/

/-- Python `dict.get(k, default)` over an association list. -/
def pyDictGet (d : List (Str × α)) (k : Str) (dflt : α) : α :=
  match d.find? (fun kv => kv.1 = k) with
  | some kv => kv.2
  | none => dflt

/-- `f"ip-{private_ip.replace('.', '-')}.{region}.compute.internal"`. -/
def private_dns (private_ip region : Str) : Str :=
  strL "ip-" ++ pyReplace (strL ".") (strL "-") private_ip ++
    strL "." ++ region ++ strL ".compute.internal"

/-- `pods_by_node.get(private_dns, [])`: the pods rendered for one EKS
worker instance. -/
def node_pods (pods_by_node : List (Str × List α)) (private_ip region : Str) :
    List α :=
  pyDictGet pods_by_node (private_dns private_ip region) []

/-! ## JSON-serializable Python values

The inventory document is built from `None`, `bool`, `int`, `str`, `list`
and `dict` values (every timestamp is converted with `.isoformat()` before
storage, so no non-JSON type reaches `json.dump` inside the modelled data
model).  Arrays and objects are separate inductives (isomorphic to lists)
so that all recursions stay mutually structural. -/

mutual
inductive JVal where
  | null : JVal
  | jbool : Bool → JVal
  | jint : Int → JVal
  | jstr : Str → JVal
  | jarr : JArr → JVal
  | jobj : JObj → JVal

inductive JArr where
  | nil : JArr
  | cons : JVal → JArr → JArr

inductive JObj where
  | nil : JObj
  | cons : Str → JVal → JObj → JObj
end

def JArr.ofList : List JVal → JArr
  | [] => .nil
  | v :: vs => .cons v (JArr.ofList vs)

def JObj.ofList : List (Str × JVal) → JObj
  | [] => .nil
  | kv :: kvs => .cons kv.1 kv.2 (JObj.ofList kvs)

/-- A Python list literal as a `JVal`. -/
def jarrL (xs : List JVal) : JVal := .jarr (JArr.ofList xs)

/-- A Python dict literal as a `JVal`. -/
def jobjL (fs : List (Str × JVal)) : JVal := .jobj (JObj.ofList fs)

/-! ## Python dict operations (association list, insertion-ordered) -/

/-- `d[k] = v`: update in place if the key exists, else append. -/
def pyDictSet (d : List (Str × JVal)) (k : Str) (v : JVal) : List (Str × JVal) :=
  if d.any (fun kv => decide (kv.1 = k)) then
    d.map (fun kv => if kv.1 = k then (k, v) else kv)
  else d ++ [(k, v)]

/-- `k in d`. -/
def pyDictHasKey (d : List (Str × JVal)) (k : Str) : Bool :=
  d.any (fun kv => decide (kv.1 = k))

/-- `d.get(k)` (no default): first binding wins, as keys are unique. -/
def pyDictLookup (d : List (Str × JVal)) (k : Str) : Option JVal :=
  (d.find? (fun kv => decide (kv.1 = k))).map Prod.snd

/-! ## The per-region orchestrator (`main.py` 79-190, 236-255)

Each collector call inside a `try` block is abstracted as an `Except`
outcome: `.ok v` when the collector returns the (already serialized) value
`v`, `.error ()` when it raises. -/

structure CollectorOutcomes where
  vpcs : Except Unit JVal
  ec2_instances : Except Unit JVal
  ecs_clusters : Except Unit JVal
  eks_clusters : Except Unit JVal
  rds : Except Unit JVal
  elasticache : Except Unit JVal
  load_balancers : Except Unit JVal
  elasticbeanstalk : Except Unit JVal
  redshift : Except Unit JVal

def rdsDefault : JVal :=
  jobjL [(strL "instances", jarrL []), (strL "clusters", jarrL [])]

def elasticacheDefault : JVal :=
  jobjL [(strL "clusters", jarrL []), (strL "replication_groups", jarrL []),
         (strL "serverless_caches", jarrL [])]

def elbDefault : JVal :=
  jobjL [(strL "application_load_balancers", jarrL []),
         (strL "network_load_balancers", jarrL []),
         (strL "classic_load_balancers", jarrL []),
         (strL "target_groups", jarrL [])]

def ebDefault : JVal :=
  jobjL [(strL "applications", jarrL []), (strL "environments", jarrL [])]

def redshiftDefault : JVal :=
  jobjL [(strL "clusters", jarrL []), (strL "serverless_workgroups", jarrL []),
         (strL "serverless_namespaces", jarrL [])]

/-- The `vpc`/`ec2` branch of `collect_region_resources` (`main.py` 93-104):
one `try` covers both collections.  A raised `collect()` sets both
defaults; a raised `collect_ec2_instances()` (only attempted when `all` or
`ec2` is selected) lands in the same `except`, which overwrites the
already-stored `vpcs` with `[]` as well. -/
def stageVpcEc2 (vpcOutcome ec2Outcome : Except Unit JVal) (cond1 cond2 : Bool)
    (d0 : List (Str × JVal)) : List (Str × JVal) :=
  if cond1 then
    match vpcOutcome with
    | .error _ =>
      pyDictSet (pyDictSet d0 (strL "vpcs") (jarrL [])) (strL "ec2_instances") (jarrL [])
    | .ok vpcs =>
      let d := pyDictSet d0 (strL "vpcs") vpcs
      if cond2 then
        match ec2Outcome with
        | .ok insts => pyDictSet d (strL "ec2_instances") insts
        | .error _ =>
          pyDictSet (pyDictSet d (strL "vpcs") (jarrL [])) (strL "ec2_instances") (jarrL [])
      else d
  else d0

/-- One `if selected: try: d[key] = collect() except: d[key] = default`
block of `collect_region_resources` (the shape every remaining service
family repeats). -/
def stageSimple (cond : Bool) (outcome : Except Unit JVal) (key : Str)
    (dflt : JVal) (d : List (Str × JVal)) : List (Str × JVal) :=
  if cond then
    match outcome with
    | .ok v => pyDictSet d key v
    | .error _ => pyDictSet d key dflt
  else d

/-- `collect_region_resources(session, region, services)` (`main.py` 79-190). -/
def collect_region_resources (o : CollectorOutcomes) (region collected_at : Str)
    (services : List Str) : List (Str × JVal) :=
  let collect_all := services.contains (strL "all")
  let d0 := [(strL "region", JVal.jstr region),
             (strL "collected_at", JVal.jstr collected_at)]
  let d1 := stageVpcEc2 o.vpcs o.ec2_instances
    (collect_all || services.contains (strL "vpc") || services.contains (strL "ec2"))
    (collect_all || services.contains (strL "ec2")) d0
  let d2 := stageSimple (collect_all || services.contains (strL "ecs"))
    o.ecs_clusters (strL "ecs_clusters") (jarrL []) d1
  let d3 := stageSimple (collect_all || services.contains (strL "eks"))
    o.eks_clusters (strL "eks_clusters") (jarrL []) d2
  let d4 := stageSimple (collect_all || services.contains (strL "rds"))
    o.rds (strL "rds") rdsDefault d3
  let d5 := stageSimple (collect_all || services.contains (strL "elasticache"))
    o.elasticache (strL "elasticache") elasticacheDefault d4
  let d6 := stageSimple (collect_all || services.contains (strL "elb"))
    o.load_balancers (strL "load_balancers") elbDefault d5
  let d7 := stageSimple (collect_all || services.contains (strL "elasticbeanstalk"))
    o.elasticbeanstalk (strL "elasticbeanstalk") ebDefault d6
  let d8 := stageSimple (collect_all || services.contains (strL "redshift"))
    o.redshift (strL "redshift") redshiftDefault d7
  d8

/-- The entry stored for a region whose whole collection raised
(`main.py` 249-255): `{"region": region, "error": str(e)}`. -/
def error_region_entry (region err : Str) : List (Str × JVal) :=
  [(strL "region", JVal.jstr region), (strL "error", JVal.jstr err)]

/-- One `inventory["regions"][region]` entry (`main.py` 236-255). -/
def region_entry (region : Str) (outcome : Except Str (List (Str × JVal))) :
    List (Str × JVal) :=
  match outcome with
  | .ok d => d
  | .error e => error_region_entry region e

/-- The diagram generators' region loop skips entries carrying an
`"error"` key (`diagram_generator_detailed.py` 646-650; likewise
`diagram_generator.py` 253 and 331, `diagram_generator_drawio.py` 740,
`collect_k8s_workloads.py` 54): only the remaining entries are read. -/
def processed_regions (regions : List (Str × List (Str × JVal))) :
    List (Str × List (Str × JVal)) :=
  regions.filter (fun rd => !pyDictHasKey rd.2 (strL "error"))

/-! ## JSON serialization (`json.dump(inventory, f, indent=2, default=str)`)

The serializer below models `json.dumps` on the modelled value space.  The
`indent=2` option only inserts whitespace between structural tokens, which
`json.load`'s scanner skips (the parser below skips it too), so the
round-tripped value is independent of it and the model emits the compact
form.  `ensure_ascii`/`default=str` are not exercised by `JVal` leaves:
every leaf is already a JSON-native `null`/`bool`/`int`/`str`. -/

/-- Lower-case hex digit, as Python emits in `\uXXXX` escapes. -/
def hexDigitChar (n : Nat) : Char :=
  if n < 10 then Char.ofNat (48 + n) else Char.ofNat (87 + n)

/-- `json.dumps` escaping of one string character: `\"`, `\\`, the short
control escapes `\n` `\t` `\r` `\b` `\f`, `\u00XX` for the remaining
control characters, everything else verbatim. -/
def escChar (c : Char) : Str :=
  if c = '"' then [ '\\', '"' ]
  else if c = '\\' then [ '\\', '\\' ]
  else if c = '\n' then [ '\\', 'n' ]
  else if c = '\t' then [ '\\', 't' ]
  else if c = '\r' then [ '\\', 'r' ]
  else if c = '\x08' then [ '\\', 'b' ]
  else if c = '\x0c' then [ '\\', 'f' ]
  else if c.toNat < 32 then
    '\\' :: 'u' :: '0' :: '0' ::
      hexDigitChar (c.toNat / 16) :: hexDigitChar (c.toNat % 16) :: []
  else [c]

/-- A serialized JSON string literal. -/
def serStr (s : Str) : Str := '"' :: (s.map escChar).flatten ++ [ '"' ]

/-- Decimal digits of a natural number. -/
def natDigits (n : Nat) : Str :=
  if n < 10 then [ Char.ofNat (48 + n) ]
  else natDigits (n / 10) ++ [ Char.ofNat (48 + n % 10) ]
termination_by n
decreasing_by
  have : 10 ≤ n := Nat.le_of_not_lt (by assumption)
  omega

/-- A serialized JSON integer. -/
def serInt (n : Int) : Str :=
  if n < 0 then '-' :: natDigits n.natAbs else natDigits n.toNat

mutual
def serVal : JVal → Str
  | .null => strL "null"
  | .jbool true => strL "true"
  | .jbool false => strL "false"
  | .jint n => serInt n
  | .jstr s => serStr s
  | .jarr a => '[' :: serArr a ++ [ ']' ]
  | .jobj o => '\x7b' :: serObj o ++ [ '\x7d' ]

def serArr : JArr → Str
  | .nil => []
  | .cons v tl => serVal v ++ serArrTl tl

def serArrTl : JArr → Str
  | .nil => []
  | .cons v tl => ',' :: (serVal v ++ serArrTl tl)

def serObj : JObj → Str
  | .nil => []
  | .cons k v tl => serStr k ++ ':' :: serVal v ++ serObjTl tl

def serObjTl : JObj → Str
  | .nil => []
  | .cons k v tl => ',' :: (serStr k ++ ':' :: serVal v ++ serObjTl tl)
end

/-- `json.dumps` on the modelled value space. -/
def json_dumps (v : JVal) : Str := serVal v

/-! ## JSON parsing (`json.load` / `json.loads`)

A fuel-indexed recursive-descent scanner over the grammar fragment the
serializer emits (objects, arrays, strings with escapes, integers, the
three literals), skipping inter-token whitespace.  Fuel only bounds
nesting-driven recursion; `s.length + 1` is always enough (proved below
via the `cost` measures). -/

def isJsonWs (c : Char) : Bool :=
  c = ' ' || c = '\t' || c = '\n' || c = '\r'

def skipWs (s : Str) : Str := s.dropWhile isJsonWs

/-- Value of one hex digit (both cases, as Python accepts). -/
def hexVal? (c : Char) : Option Nat :=
  if '0' ≤ c ∧ c ≤ '9' then some (c.toNat - 48)
  else if 'a' ≤ c ∧ c ≤ 'f' then some (c.toNat - 87)
  else if 'A' ≤ c ∧ c ≤ 'F' then some (c.toNat - 55)
  else none

/-- One-character escapes accepted after a backslash. -/
def unescape? (c : Char) : Option Char :=
  if c = '"' then some '"'
  else if c = '\\' then some '\\'
  else if c = '/' then some '/'
  else if c = 'n' then some '\n'
  else if c = 't' then some '\t'
  else if c = 'r' then some '\r'
  else if c = 'b' then some '\x08'
  else if c = 'f' then some '\x0c'
  else none

/-- An input whose first character is not a digit: nothing that could
extend a just-scanned number token. -/
def digitSafe : Str → Prop
  | [] => True
  | c :: _ => c.isDigit = false

/-- First character of a string, if any. -/
def headChar? : Str → Option Char
  | [] => none
  | c :: _ => some c

/-! Scan of a JSON string body (the opening quote already consumed),
returning the decoded characters and the input after the closing quote.
`parseStrEsc` handles the character after a backslash, `parseStrHex` the
four hex digits of a `\uXXXX` escape. -/
mutual
def parseStrBody : Str → Option (Str × Str)
  | [] => none
  | c :: r =>
    if c = '"' then some ([], r)
    else if c = '\\' then parseStrEsc r
    else (parseStrBody r).map (fun p => (c :: p.1, p.2))

def parseStrEsc : Str → Option (Str × Str)
  | [] => none
  | e :: r2 =>
    if e = 'u' then parseStrHex r2
    else
      match unescape? e with
      | some ch => (parseStrBody r2).map (fun p => (ch :: p.1, p.2))
      | none => none

def parseStrHex : Str → Option (Str × Str)
  | h1 :: h2 :: h3 :: h4 :: r3 =>
    match hexVal? h1, hexVal? h2, hexVal? h3, hexVal? h4 with
    | some a, some b, some c2, some d =>
      (parseStrBody r3).map
        (fun p => (Char.ofNat (4096 * a + 256 * b + 16 * c2 + d) :: p.1, p.2))
    | _, _, _, _ => none
  | _ => none
end

/-- Scan a run of decimal digits into a natural number. -/
def parseNat (s : Str) : Option (Nat × Str) :=
  if (s.takeWhile (fun c => c.isDigit)).isEmpty then none
  else some ((s.takeWhile (fun c => c.isDigit)).foldl
               (fun a c => 10 * a + (c.toNat - 48)) 0,
             s.dropWhile (fun c => c.isDigit))

mutual
def parseVal : Nat → Str → Option (JVal × Str)
  | 0, _ => none
  | fuel + 1, s =>
    match skipWs s with
    | [] => none
    | c :: r =>
      if c = 'n' then
        if (strL "ull").isPrefixOf r then some (.null, r.drop 3) else none
      else if c = 't' then
        if (strL "rue").isPrefixOf r then some (.jbool true, r.drop 3) else none
      else if c = 'f' then
        if (strL "alse").isPrefixOf r then some (.jbool false, r.drop 4) else none
      else if c = '"' then
        (parseStrBody r).map (fun p => (.jstr p.1, p.2))
      else if c = '[' then
        if headChar? (skipWs r) = some ']' then some (.jarr .nil, (skipWs r).drop 1)
        else (parseArrItems fuel (skipWs r)).map (fun p => (.jarr p.1, p.2))
      else if c = '\x7b' then
        if headChar? (skipWs r) = some '\x7d' then some (.jobj .nil, (skipWs r).drop 1)
        else (parseObjItems fuel (skipWs r)).map (fun p => (.jobj p.1, p.2))
      else if c = '-' then
        (parseNat r).map (fun p => (.jint (-(p.1 : Int)), p.2))
      else
        (parseNat (c :: r)).map (fun p => (.jint (p.1 : Int), p.2))

def parseArrItems : Nat → Str → Option (JArr × Str)
  | 0, _ => none
  | fuel + 1, s =>
    match parseVal fuel s with
    | none => none
    | some (v, r) =>
      match skipWs r with
      | [] => none
      | c :: r2 =>
        if c = ',' then (parseArrItems fuel r2).map (fun p => (.cons v p.1, p.2))
        else if c = ']' then some (.cons v .nil, r2)
        else none

def parseObjItems : Nat → Str → Option (JObj × Str)
  | 0, _ => none
  | fuel + 1, s =>
    match skipWs s with
    | [] => none
    | c :: r =>
      if c = '"' then
        match parseStrBody r with
        | none => none
        | some (k, r1) =>
          match skipWs r1 with
          | [] => none
          | c2 :: r2 =>
            if c2 = ':' then
              match parseVal fuel r2 with
              | none => none
              | some (v, r3) =>
                match skipWs r3 with
                | [] => none
                | c3 :: r4 =>
                  if c3 = ',' then
                    (parseObjItems fuel r4).map (fun p => (.cons k v p.1, p.2))
                  else if c3 = '\x7d' then some (.cons k v .nil, r4)
                  else none
            else none
      else none
end

/-- `json.loads`: parse one value, allow trailing whitespace only. -/
def json_loads (s : Str) : Option JVal :=
  match parseVal (s.length + 1) s with
  | some (v, r) => if (skipWs r).isEmpty then some v else none
  | none => none

/-! Fuel measures: `costV v` parser calls suffice to parse `serVal v`. -/

mutual
def costV : JVal → Nat
  | .null => 1
  | .jbool _ => 1
  | .jint _ => 1
  | .jstr _ => 1
  | .jarr a => costA a + 1
  | .jobj o => costO o + 1

def costA : JArr → Nat
  | .nil => 0
  | .cons v tl => max (costV v) (costA tl) + 1

def costO : JObj → Nat
  | .nil => 0
  | .cons _ v tl => max (costV v) (costO tl) + 1
end

/-! ## The serialized data model (`models/vpc.py`) and inventory document -/

/-- `None`-able string field. -/
def jOptStr : Option Str → JVal
  | none => .null
  | some s => .jstr s

/-- A `Dict[str, str]` (e.g. tags) as a JSON object. -/
def jStrObj (tags : List (Str × Str)) : JVal :=
  jobjL (tags.map (fun kv => (kv.1, JVal.jstr kv.2)))

structure SubnetModel where
  subnet_id : Str
  vpc_id : Str
  cidr_block : Str
  availability_zone : Str
  availability_zone_id : Str
  state : Str
  map_public_ip_on_launch : Bool
  name : Option Str
  tags : List (Str × Str)

/-- `SubnetModel.to_dict` = `dataclasses.asdict` (field declaration order). -/
def SubnetModel.to_dict (m : SubnetModel) : JVal :=
  jobjL [(strL "subnet_id", .jstr m.subnet_id),
         (strL "vpc_id", .jstr m.vpc_id),
         (strL "cidr_block", .jstr m.cidr_block),
         (strL "availability_zone", .jstr m.availability_zone),
         (strL "availability_zone_id", .jstr m.availability_zone_id),
         (strL "state", .jstr m.state),
         (strL "map_public_ip_on_launch", .jbool m.map_public_ip_on_launch),
         (strL "name", jOptStr m.name),
         (strL "tags", jStrObj m.tags)]

/-- `VPCModel` (`models/vpc.py` 52-97).  The gateway/route-table/security-
group/endpoint lists hold the collector's already-simplified JSON dicts,
kept as raw `JVal`s here. -/
structure VPCModel where
  vpc_id : Str
  cidr_block : Str
  state : Str
  is_default : Bool
  region : Str
  name : Option Str
  tags : List (Str × Str)
  subnets : List SubnetModel
  internet_gateways : List JVal
  nat_gateways : List JVal
  route_tables : List JVal
  security_groups : List JVal
  vpc_endpoints : List JVal

/-- `VPCModel.to_dict` (`models/vpc.py` 81-97), explicit key order. -/
def VPCModel.to_dict (m : VPCModel) : JVal :=
  jobjL [(strL "vpc_id", .jstr m.vpc_id),
         (strL "cidr_block", .jstr m.cidr_block),
         (strL "state", .jstr m.state),
         (strL "is_default", .jbool m.is_default),
         (strL "region", .jstr m.region),
         (strL "name", jOptStr m.name),
         (strL "tags", jStrObj m.tags),
         (strL "subnets", jarrL (m.subnets.map SubnetModel.to_dict)),
         (strL "internet_gateways", jarrL m.internet_gateways),
         (strL "nat_gateways", jarrL m.nat_gateways),
         (strL "route_tables", jarrL m.route_tables),
         (strL "security_groups", jarrL m.security_groups),
         (strL "vpc_endpoints", jarrL m.vpc_endpoints)]

/-- The orchestrator's `inventory["metadata"]` (`main.py` 224-232). -/
structure InventoryMetadata where
  account_id : Str
  generated_at : Str
  regions_scanned : List Str
  services_collected : List Str
  role_arn : Option Str

def InventoryMetadata.to_jval (m : InventoryMetadata) : JVal :=
  jobjL [(strL "account_id", .jstr m.account_id),
         (strL "generated_at", .jstr m.generated_at),
         (strL "regions_scanned", jarrL (m.regions_scanned.map JVal.jstr)),
         (strL "services_collected", jarrL (m.services_collected.map JVal.jstr)),
         (strL "role_arn", jOptStr m.role_arn)]

/-- The inventory document written by `main.py` 279-281: metadata plus the
per-region entries (each a dict, e.g. from `collect_region_resources` with
`vpcs` bound to `[vpc.to_dict() for vpc in vpcs]`). -/
def inventory_doc (meta : InventoryMetadata)
    (regions : List (Str × List (Str × JVal))) : JVal :=
  jobjL [(strL "metadata", meta.to_jval),
         (strL "regions", jobjL (regions.map (fun rd => (rd.1, jobjL rd.2))))]

/-! # Theorems -/

/-! ## Chunking lemmas -/

theorem chunks_nil (n : Nat) : chunks n ([] : List α) = [] := by
  rw [chunks]
  simp

theorem chunks_eq_cons (n : Nat) (hn : n ≠ 0) (xs : List α) (hx : xs ≠ []) :
    chunks n xs = xs.take n :: chunks n (xs.drop n) := by
  rw [chunks, dif_neg]
  simp [List.isEmpty_iff, hx, hn]

theorem chunks_join (n : Nat) (hn : 0 < n) (xs : List α) :
    (chunks n xs).flatten = xs := by
  induction xs using chunks.induct n with
  | case1 xs h =>
    rcases h with h | h
    · rw [List.isEmpty_iff] at h
      simp [chunks, h]
    · omega
  | case2 xs h ih =>
    rw [chunks, dif_neg h]
    simp [ih, List.take_append_drop]

theorem chunks_length_le (n : Nat) (xs : List α) (c : List α)
    (hc : c ∈ chunks n xs) : c.length ≤ n := by
  induction xs using chunks.induct n with
  | case1 xs h =>
    rw [chunks, dif_pos h] at hc
    simp at hc
  | case2 xs h ih =>
    rw [chunks, dif_neg h] at hc
    rcases List.mem_cons.mp hc with h1 | h1
    · subst h1; simp [List.length_take_le]
    · exact ih h1

theorem chunks_map_join (n : Nat) (hn : 0 < n) (xs : List α) (f : α → β) :
    ((chunks n xs).map (fun b => b.map f)).flatten = xs.map f := by
  induction xs using chunks.induct n with
  | case1 xs h =>
    rcases h with h | h
    · rw [List.isEmpty_iff] at h
      simp [chunks, h]
    · omega
  | case2 xs h ih =>
    rw [chunks, dif_neg h]
    simp only [List.map_cons, List.flatten_cons, ih]
    rw [← List.map_append, List.take_append_drop]

theorem chunks_sizes_247 (ids : List ι) (h : ids.length = 247) :
    (chunks 100 ids).map List.length = [100, 100, 47] := by
  have h0 : ids ≠ [] := by
    intro e; subst e; simp at h
  have h1 : ids.drop 100 ≠ [] := by
    intro e
    have := congrArg List.length e
    simp [h] at this
  have h2 : (ids.drop 100).drop 100 ≠ [] := by
    intro e
    have := congrArg List.length e
    simp [h] at this
  have h3 : ((ids.drop 100).drop 100).drop 100 = [] := by
    have : (((ids.drop 100).drop 100).drop 100).length = 0 := by simp [h]
    exact List.eq_nil_of_length_eq_zero this
  rw [chunks_eq_cons 100 (by omega) _ h0,
      chunks_eq_cons 100 (by omega) _ h1,
      chunks_eq_cons 100 (by omega) _ h2,
      h3, chunks_nil]
  simp [List.length_take, h]

theorem describe_clusters_calls (api : List ι → List β) (ids : List ι) :
    (describe_clusters api ids).2 = if ids.isEmpty then [] else chunks 100 ids := by
  by_cases h : ids.isEmpty <;> simp [describe_clusters, h]

theorem describe_services_calls (api : List ι → List β) (ids : List ι) :
    (describe_services api ids).2 = if ids.isEmpty then [] else chunks 10 ids := by
  by_cases h : ids.isEmpty <;> simp [describe_services, h]

theorem describe_tasks_calls (api : List ι → List β) (ids : List ι) :
    (describe_tasks api ids).2 = if ids.isEmpty then [] else chunks 100 ids := by
  by_cases h : ids.isEmpty <;> simp [describe_tasks, h]

/-- C1: every batch sent by the ECS client's batched describe operations
respects the provider cap (100 for `describe_clusters` and
`describe_tasks`, 10 for `describe_services`); the batches are consecutive
chunks whose concatenation is the input list; with a per-identifier
response the concatenated results are the input-order map; and an input of
247 identifiers at cap 100 yields exactly 3 calls of sizes 100, 100, 47. -/
theorem c1_ecs_batching {ι β : Type} :
    (∀ (api : List ι → List β) (ids : List ι) (b : List ι),
        b ∈ (describe_clusters api ids).2 → b.length ≤ 100) ∧
    (∀ (api : List ι → List β) (ids : List ι) (b : List ι),
        b ∈ (describe_services api ids).2 → b.length ≤ 10) ∧
    (∀ (api : List ι → List β) (ids : List ι) (b : List ι),
        b ∈ (describe_tasks api ids).2 → b.length ≤ 100) ∧
    (∀ (api : List ι → List β) (ids : List ι),
        ((describe_clusters api ids).2).flatten = ids ∧
        ((describe_services api ids).2).flatten = ids ∧
        ((describe_tasks api ids).2).flatten = ids) ∧
    (∀ (f : ι → β) (ids : List ι),
        (describe_clusters (fun b => b.map f) ids).1 = ids.map f ∧
        (describe_services (fun b => b.map f) ids).1 = ids.map f ∧
        (describe_tasks (fun b => b.map f) ids).1 = ids.map f) ∧
    (∀ (api : List ι → List β) (ids : List ι), ids.length = 247 →
        ((describe_clusters api ids).2).map List.length = [100, 100, 47]) := by
  have hflat : ∀ (n : Nat), 0 < n → ∀ (ids : List ι),
      (if ids.isEmpty then ([] : List (List ι)) else chunks n ids).flatten = ids := by
    intro n hn ids
    by_cases h : ids.isEmpty
    · rw [List.isEmpty_iff] at h
      simp [h]
    · simp only [if_neg h]
      exact chunks_join n hn ids
  have hres : ∀ (n : Nat), 0 < n → ∀ (f : ι → β) (ids : List ι),
      ((if ids.isEmpty then ([] : List (List ι)) else chunks n ids).map
        (fun b => b.map f)).flatten = ids.map f := by
    intro n hn f ids
    by_cases h : ids.isEmpty
    · rw [List.isEmpty_iff] at h
      simp [h]
    · simp only [if_neg h]
      exact chunks_map_join n hn ids f
  refine ⟨?_, ?_, ?_, ?_, ?_, ?_⟩
  · intro api ids b hb
    rw [describe_clusters_calls] at hb
    by_cases h : ids.isEmpty
    · simp [h] at hb
    · exact chunks_length_le 100 ids b (by simpa [h] using hb)
  · intro api ids b hb
    rw [describe_services_calls] at hb
    by_cases h : ids.isEmpty
    · simp [h] at hb
    · exact chunks_length_le 10 ids b (by simpa [h] using hb)
  · intro api ids b hb
    rw [describe_tasks_calls] at hb
    by_cases h : ids.isEmpty
    · simp [h] at hb
    · exact chunks_length_le 100 ids b (by simpa [h] using hb)
  · intro api ids
    refine ⟨?_, ?_, ?_⟩
    · rw [describe_clusters_calls]; exact hflat 100 (by omega) ids
    · rw [describe_services_calls]; exact hflat 10 (by omega) ids
    · rw [describe_tasks_calls]; exact hflat 100 (by omega) ids
  · intro f ids
    by_cases h : ids.isEmpty
    · rw [List.isEmpty_iff] at h
      subst h
      refine ⟨?_, ?_, ?_⟩ <;> rfl
    · refine ⟨?_, ?_, ?_⟩
      · simpa [describe_clusters, h] using hres 100 (by omega) f ids
      · simpa [describe_services, h] using hres 10 (by omega) f ids
      · simpa [describe_tasks, h] using hres 100 (by omega) f ids
  · intro api ids hlen
    have h : ¬ ids.isEmpty := by
      rw [List.isEmpty_iff]
      intro e; subst e; simp at hlen
    rw [describe_clusters_calls, if_neg h]
    exact chunks_sizes_247 ids hlen

theorem c1_ecs_batching_witness :
    ((describe_clusters (fun (b : List Nat) => b) (List.replicate 247 0)).2).map
      List.length = [100, 100, 47] ∧
    ((describe_services (fun (b : List Nat) => b) [1, 2, 3]).2).flatten = [1, 2, 3] := by
  refine ⟨?_, ?_⟩
  · exact (c1_ecs_batching.2.2.2.2.2) (fun b => b) (List.replicate 247 0)
      (by rw [List.length_replicate])
  · exact ((c1_ecs_batching.2.2.2.1) (fun b => b) [1, 2, 3]).2.1

/-- C9: on an empty identifier list each batched describe operation
returns the empty result immediately, issuing no provider call at all
(empty call trace). -/
theorem c9_empty_describe_no_calls {ι β : Type} (api : List ι → List β) :
    describe_clusters api [] = ([], []) ∧
    describe_services api [] = ([], []) ∧
    describe_tasks api [] = ([], []) :=
  ⟨rfl, rfl, rfl⟩

/-! ## `format_label` -/

/-- C10: for `max_len ≥ 2`, `format_label` returns `name` unchanged when
it fits, and otherwise returns a string of length exactly `max_len` that
ends in `".."` and whose first `max_len - 2` characters are a prefix of
`name`; in all cases the result is at most `max_len` characters long. -/
theorem c10_format_label (name : Str) (max_len : Int) (h2 : 2 ≤ max_len) :
    (((name.length : Int) ≤ max_len → format_label name max_len = name) ∧
     (max_len < (name.length : Int) →
        ((format_label name max_len).length : Int) = max_len ∧
        strL ".." <:+ format_label name max_len ∧
        (format_label name max_len).take (max_len.toNat - 2) <+: name)) ∧
    ((format_label name max_len).length : Int) ≤ max_len := by
  by_cases hle : (name.length : Int) ≤ max_len
  · constructor
    · constructor
      · intro _
        simp [format_label, hle]
      · intro hgt
        omega
    · simp [format_label, hle]
  · have hlt : max_len < (name.length : Int) := lt_of_not_ge hle
    have hk : (0 : Int) ≤ max_len - 2 := by omega
    have hslice : pySliceTo name (max_len - 2) = name.take (max_len - 2).toNat := by
      simp [pySliceTo, hk]
    have hlen_take : (name.take (max_len - 2).toNat).length = (max_len - 2).toNat := by
      simp [List.length_take]
      omega
    have hres : format_label name max_len =
        name.take (max_len - 2).toNat ++ [ '.', '.' ] := by
      simp [format_label, hle, hslice]
    constructor
    · constructor
      · intro hcontra
        omega
      · intro _
        refine ⟨?_, ?_, ?_⟩
        · rw [hres]
          simp [hlen_take]
          omega
        · rw [hres]
          exact List.suffix_append _ _
        · rw [hres]
          have htoNat : max_len.toNat - 2 = (max_len - 2).toNat := by omega
          rw [htoNat, List.take_append_of_le_length (by omega)]
          rw [List.take_take]
          exact List.take_prefix _ _
    · rw [hres]
      simp [hlen_take]
      omega

theorem c10_format_label_witness :
    format_label (strL "abcdefgh") 5 = strL "abc.." ∧
    ((format_label (strL "abcdefgh") 5).length : Int) = 5 ∧
    format_label (strL "ab") 5 = strL "ab" := by
  have h := c10_format_label (strL "abcdefgh") 5 (by omega)
  have hgt : (5 : Int) < ((strL "abcdefgh").length : Int) := by
    simp [strL]
  refine ⟨?_, (h.1.2 hgt).1, ?_⟩
  · rfl
  · have h2 := c10_format_label (strL "ab") 5 (by omega)
    exact h2.1.1 (by simp [strL])

/-! ## `str.replace` lemmas -/

theorem pyReplace_nil (old new : Str) : pyReplace old new [] = [] := by
  rw [pyReplace]

theorem pyReplace_single_map (a b : Char) (s : Str) :
    pyReplace [a] [b] s = s.map (fun c => if c = a then b else c) := by
  induction s with
  | nil => rw [pyReplace]; rfl
  | cons c rest ih =>
    rw [pyReplace]
    by_cases hca : c = a
    · subst hca
      rw [dif_pos]
      · simp [ih]
      · constructor
        · simp
        · simp [List.isPrefixOf]
    · rw [dif_neg]
      · simp [hca, ih]
      · intro hcontra
        have := hcontra.2
        simp [List.isPrefixOf] at this
        exact hca this.symm

theorem pyReplace_del_filter (a : Char) (s : Str) :
    pyReplace [a] [] s = s.filter (fun c => c ≠ a) := by
  induction s with
  | nil => rw [pyReplace]; rfl
  | cons c rest ih =>
    rw [pyReplace]
    by_cases hca : c = a
    · subst hca
      rw [dif_pos]
      · simp [ih]
      · constructor
        · simp
        · simp [List.isPrefixOf]
    · rw [dif_neg]
      · simp [hca, ih]
      · intro hcontra
        have := hcontra.2
        simp [List.isPrefixOf] at this
        exact hca this.symm

theorem codeNormalize_eq_filter (s : Str) :
    codeNormalize s = (pyLower s).filter (fun c => c ≠ '-' && c ≠ '_') := by
  unfold codeNormalize
  rw [show strL "-" = [ '-' ] from rfl, show strL "_" = [ '_' ] from rfl]
  rw [pyReplace_del_filter, pyReplace_del_filter, List.filter_filter]
  apply List.filter_congr
  intro c _
  by_cases h1 : c = '-' <;> by_cases h2 : c = '_' <;> simp [h1, h2]

/-! ## C8: pod lookup key derivation -/

/-- C8: the pods rendered for an EKS worker instance come from
`pods_by_node` under exactly the derived key
`"ip-" + private_ip.replace(".", "-") + "." + region + ".compute.internal"`,
and when that key is absent the lookup yields `[]` (no error is possible:
`node_pods` is a total function). -/
theorem c8_pod_lookup {α : Type} :
    (∀ ip region : Str,
       private_dns ip region =
         strL "ip-" ++ ip.map (fun c => if c = '.' then '-' else c) ++
           strL "." ++ region ++ strL ".compute.internal") ∧
    (∀ (pods_by_node : List (Str × List α)) (ip region : Str),
       (∀ kv ∈ pods_by_node, kv.1 ≠ private_dns ip region) →
       node_pods pods_by_node ip region = []) := by
  constructor
  · intro ip region
    unfold private_dns
    rw [show strL "." = [ '.' ] from rfl, show strL "-" = [ '-' ] from rfl,
        pyReplace_single_map]
  · intro pods_by_node ip region habs
    unfold node_pods pyDictGet
    have : pods_by_node.find? (fun kv => decide (kv.1 = private_dns ip region)) = none := by
      apply List.find?_eq_none.mpr
      intro kv hkv
      simp [habs kv hkv]
    rw [this]

theorem c8_pod_lookup_witness :
    private_dns (strL "10.0.1.5") (strL "us-east-1") =
      strL "ip-10-0-1-5.us-east-1.compute.internal" ∧
    node_pods [(strL "ip-172-31-0-1.us-east-1.compute.internal", [()])]
      (strL "10.0.1.5") (strL "us-east-1") = [] := by
  constructor
  · rw [(@c8_pod_lookup Unit).1 (strL "10.0.1.5") (strL "us-east-1")]
    decide
  · apply (@c8_pod_lookup Unit).2
    intro kv hkv
    simp only [List.mem_singleton] at hkv
    subst hkv
    rw [(@c8_pod_lookup Unit).1 (strL "10.0.1.5") (strL "us-east-1")]
    decide

/-! ## C5: subnet-membership attribution of ECS clusters -/

/-- C5: if some service of an ECS cluster lists a placement subnet that
belongs to the VPC's subnet-id set, the cluster is kept by the VPC's
filtered ECS set, whatever its name (the records carry no VPC id at all). -/
theorem c5_subnet_match_attribution
    (vpc_name : Str) (vpc_subnet_ids : List Str) (ecs_clusters : List EcsCluster)
    (cluster : EcsCluster) (hc : cluster ∈ ecs_clusters)
    (svc : EcsService) (hs : svc ∈ cluster.services)
    (sn : Str) (hsn : sn ∈ svc.subnets) (hmem : sn ∈ vpc_subnet_ids) :
    cluster ∈ vpc_ecs_filter vpc_name vpc_subnet_ids ecs_clusters := by
  apply List.mem_filter.mpr
  refine ⟨hc, ?_⟩
  simp only [Bool.or_eq_true]
  right
  unfold cluster_subnet_match
  apply List.any_eq_true.mpr
  refine ⟨svc, hs, ?_⟩
  apply List.any_eq_true.mpr
  refine ⟨sn, hsn, ?_⟩
  simpa using hmem

theorem c5_subnet_match_attribution_witness :
    (⟨strL "orphan", [⟨[strL "subnet-a"]⟩]⟩ : EcsCluster) ∈
      vpc_ecs_filter (strL "vpc-1") [strL "subnet-a"]
        [⟨strL "orphan", [⟨[strL "subnet-a"]⟩]⟩] :=
  c5_subnet_match_attribution (strL "vpc-1") [strL "subnet-a"]
    [⟨strL "orphan", [⟨[strL "subnet-a"]⟩]⟩]
    ⟨strL "orphan", [⟨[strL "subnet-a"]⟩]⟩ (by simp)
    ⟨[strL "subnet-a"]⟩ (by simp)
    (strL "subnet-a") (by simp) (by simp)

/-! ## C4: the fuzzy name matcher -/

/-- C4 counterexample: the spec's normalization strips spaces, the code's
does not.  At VPC name `"my vpc"` and candidate `"myvpc"` the
spec-described matcher matches but the code's ECS name matcher does not
(and neither does the Beanstalk matcher). -/
theorem c4_fuzzy_match_counterexample :
    specFuzzyMatch (strL "my vpc") (strL "myvpc") = true ∧
    ecs_name_match (strL "my vpc") (strL "myvpc") = false ∧
    beanstalk_env_match (strL "my vpc") (strL "myvpc") (strL "app") = false := by
  refine ⟨by decide, ?_, ?_⟩
  · simp only [ecs_name_match, codeNormalize_eq_filter]
    decide
  · simp only [beanstalk_env_match,
      show strL "-" = [ '-' ] from rfl, pyReplace_del_filter]
    decide

/-- C4 (amended): the code's ECS-cluster fuzzy match lower-cases both
names and strips hyphens and underscores only (spaces are kept); it
matches iff either normalized name is a substring of the other or some
whitespace-delimited token of the normalized VPC name longer than 3
characters occurs in the normalized candidate.  The Beanstalk match
lower-cases and strips hyphens only, and only tests the VPC name as a
substring of the environment or application name. -/
theorem c4_fuzzy_match_amended (v c e a : Str) :
    ecs_name_match v c = amendedEcsFuzzyMatch v c ∧
    beanstalk_env_match v e a = amendedBeanstalkMatch v e a := by
  constructor
  · simp only [ecs_name_match, amendedEcsFuzzyMatch, codeNormalize_eq_filter]
    cases hx : pyIn ((pyLower c).filter (fun ch => ch ≠ '-' && ch ≠ '_'))
        ((pyLower v).filter (fun ch => ch ≠ '-' && ch ≠ '_')) <;>
      cases hy : pyIn ((pyLower v).filter (fun ch => ch ≠ '-' && ch ≠ '_'))
        ((pyLower c).filter (fun ch => ch ≠ '-' && ch ≠ '_')) <;>
      simp [hx, hy]
  · simp only [beanstalk_env_match, amendedBeanstalkMatch,
      show strL "-" = [ '-' ] from rfl, pyReplace_del_filter]

/-! ## C3: categorization of EC2 instances -/

theorem inEks_not_inEcs (eks_pats ecs_pats : List Str) (i : Ec2Instance)
    (h : inEksBucket eks_pats i = true) :
    inEcsBucket eks_pats ecs_pats i = false ∧
    inStandaloneBucket eks_pats ecs_pats i = false := by
  unfold inEksBucket at h
  unfold inEcsBucket inStandaloneBucket
  cases hn : i.name with
  | none => simp [hn] at h
  | some nm =>
    simp only [hn] at h ⊢
    simp only [Bool.and_eq_true] at h
    simp [h.1, h.2]

theorem inEcs_not_inStandalone (eks_pats ecs_pats : List Str) (i : Ec2Instance)
    (h : inEcsBucket eks_pats ecs_pats i = true) :
    inStandaloneBucket eks_pats ecs_pats i = false := by
  unfold inEcsBucket at h
  unfold inStandaloneBucket
  cases hn : i.name with
  | none => simp [hn] at h
  | some nm =>
    simp only [hn] at h ⊢
    simp only [Bool.and_eq_true] at h
    have := h.2
    simp only [Bool.and_eq_true] at this
    simp [h.1, this.1, this.2]

theorem bucket_running (eks_pats ecs_pats : List Str) (i : Ec2Instance)
    (h : i.state ≠ some (strL "running")) :
    inStandaloneBucket eks_pats ecs_pats i = false ∧
    inEcsBucket eks_pats ecs_pats i = false ∧
    inEksBucket eks_pats i = false := by
  unfold inStandaloneBucket inEcsBucket inEksBucket
  simp [h]

theorem categorizeLoop_eq (eks_pats ecs_pats : List Str) (l : List Ec2Instance)
    (h : ∀ i ∈ l, i.state = some (strL "running") → i.name ≠ none) :
    categorizeLoop eks_pats ecs_pats l =
      .ok ⟨l.filter (inStandaloneBucket eks_pats ecs_pats),
           l.filter (inEcsBucket eks_pats ecs_pats),
           l.filter (inEksBucket eks_pats)⟩ := by
  induction l with
  | nil => rfl
  | cons inst rest ih =>
    have hrest : ∀ i ∈ rest, i.state = some (strL "running") → i.name ≠ none :=
      fun i hi => h i (List.mem_cons_of_mem _ hi)
    by_cases hrun : inst.state = some (strL "running")
    · cases hn : inst.name with
      | none => exact absurd hn (h inst (List.mem_cons_self _ _) hrun)
      | some nm =>
        rw [categorizeLoop]
        rw [if_neg (by simp [hrun])]
        rw [hn, ih hrest]
        by_cases heks : isEksInstance (pyLower nm) (allTagsBlob inst.tags) eks_pats
        · have hf1 : inStandaloneBucket eks_pats ecs_pats inst = false := by
            unfold inStandaloneBucket
            simp [hn, heks]
          have hf2 : inEcsBucket eks_pats ecs_pats inst = false := by
            unfold inEcsBucket
            simp [hn, heks]
          have hf3 : inEksBucket eks_pats inst = true := by
            unfold inEksBucket
            simp [hn, heks, hrun]
          simp [heks, List.filter_cons, hf1, hf2, hf3]
        · by_cases hecs : isEcsInstance (pyLower nm) (allTagsBlob inst.tags) ecs_pats
          · have hf1 : inStandaloneBucket eks_pats ecs_pats inst = false := by
              unfold inStandaloneBucket
              simp [hn, hecs]
            have hf2 : inEcsBucket eks_pats ecs_pats inst = true := by
              unfold inEcsBucket
              simp [hn, heks, hecs, hrun]
            have hf3 : inEksBucket eks_pats inst = false := by
              unfold inEksBucket
              simp [hn, heks]
            simp [heks, hecs, List.filter_cons, hf1, hf2, hf3]
          · have hf1 : inStandaloneBucket eks_pats ecs_pats inst = true := by
              unfold inStandaloneBucket
              simp [hn, heks, hecs, hrun]
            have hf2 : inEcsBucket eks_pats ecs_pats inst = false := by
              unfold inEcsBucket
              simp [hn, hecs]
            have hf3 : inEksBucket eks_pats inst = false := by
              unfold inEksBucket
              simp [hn, heks]
            simp [heks, hecs, List.filter_cons, hf1, hf2, hf3]
    · have hf := bucket_running eks_pats ecs_pats inst hrun
      rw [categorizeLoop]
      rw [if_pos (by simp [hrun])]
      rw [ih hrest]
      simp [List.filter_cons, hf.1, hf.2.1, hf.2.2]

theorem three_filter_perm (eks_pats ecs_pats : List Str) (l : List Ec2Instance)
    (h : ∀ i ∈ l, i.state = some (strL "running") → i.name ≠ none) :
    (l.filter (inStandaloneBucket eks_pats ecs_pats) ++
     l.filter (inEcsBucket eks_pats ecs_pats) ++
     l.filter (inEksBucket eks_pats)).Perm
      (l.filter (fun i => decide (i.state = some (strL "running")))) := by
  induction l with
  | nil => simp
  | cons inst rest ih =>
    have hrest : ∀ i ∈ rest, i.state = some (strL "running") → i.name ≠ none :=
      fun i hi => h i (List.mem_cons_of_mem _ hi)
    have ih' := ih hrest
    by_cases hrun : inst.state = some (strL "running")
    · cases hn : inst.name with
      | none => exact absurd hn (h inst (List.mem_cons_self _ _) hrun)
      | some nm =>
        by_cases heks : isEksInstance (pyLower nm) (allTagsBlob inst.tags) eks_pats
        · have hf1 : inStandaloneBucket eks_pats ecs_pats inst = false := by
            unfold inStandaloneBucket; simp [hn, heks]
          have hf2 : inEcsBucket eks_pats ecs_pats inst = false := by
            unfold inEcsBucket; simp [hn, heks]
          have hf3 : inEksBucket eks_pats inst = true := by
            unfold inEksBucket; simp [hn, heks, hrun]
          simp only [List.filter_cons, hf1, hf2, hf3, hrun, Bool.false_eq_true,
            if_false, if_true, decide_True]
          exact List.Perm.trans List.perm_middle (List.Perm.cons _ ih')
        · by_cases hecs : isEcsInstance (pyLower nm) (allTagsBlob inst.tags) ecs_pats
          · have hf1 : inStandaloneBucket eks_pats ecs_pats inst = false := by
              unfold inStandaloneBucket; simp [hn, hecs]
            have hf2 : inEcsBucket eks_pats ecs_pats inst = true := by
              unfold inEcsBucket; simp [hn, heks, hecs, hrun]
            have hf3 : inEksBucket eks_pats inst = false := by
              unfold inEksBucket; simp [hn, heks]
            simp only [List.filter_cons, hf1, hf2, hf3, hrun, Bool.false_eq_true,
              if_false, if_true, decide_True]
            have hstep : rest.filter (inStandaloneBucket eks_pats ecs_pats) ++
                (inst :: rest.filter (inEcsBucket eks_pats ecs_pats)) ++
                rest.filter (inEksBucket eks_pats) =
                rest.filter (inStandaloneBucket eks_pats ecs_pats) ++
                inst :: (rest.filter (inEcsBucket eks_pats ecs_pats) ++
                  rest.filter (inEksBucket eks_pats)) := by
              simp [List.append_assoc]
            rw [hstep]
            refine List.Perm.trans List.perm_middle (List.Perm.cons _ ?_)
            rw [← List.append_assoc]
            exact ih'
          · have hf1 : inStandaloneBucket eks_pats ecs_pats inst = true := by
              unfold inStandaloneBucket; simp [hn, heks, hecs, hrun]
            have hf2 : inEcsBucket eks_pats ecs_pats inst = false := by
              unfold inEcsBucket; simp [hn, hecs]
            have hf3 : inEksBucket eks_pats inst = false := by
              unfold inEksBucket; simp [hn, heks]
            simp only [List.filter_cons, hf1, hf2, hf3, hrun, Bool.false_eq_true,
              if_false, if_true, decide_True, List.cons_append]
            exact List.Perm.cons _ ih'
    · have hf := bucket_running eks_pats ecs_pats inst hrun
      simp only [List.filter_cons, hf.1, hf.2.1, hf.2.2, Bool.false_eq_true,
        if_false, hrun, decide_False]
      exact ih hrest

theorem pyJoin_cons_of_ne_nil (sep p : Str) (ps : List Str) (hps : ps ≠ []) :
    pyJoin sep (p :: ps) = p ++ (sep ++ pyJoin sep ps) := by
  cases ps with
  | nil => exact absurd rfl hps
  | cons q qs =>
    unfold pyJoin
    rw [List.intersperse_cons_cons]
    simp

theorem infix_of_mem_pyJoin (sep : Str) (parts : List Str) (x : Str)
    (hx : x ∈ parts) : x <:+: pyJoin sep parts := by
  induction parts with
  | nil => simp at hx
  | cons p ps ih =>
    rcases List.mem_cons.mp hx with h | h
    · subst h
      cases ps with
      | nil =>
        unfold pyJoin
        simp
      | cons q qs =>
        rw [pyJoin_cons_of_ne_nil sep x (q :: qs) (by simp)]
        exact ⟨[], sep ++ pyJoin sep (q :: qs), by simp⟩
    · have hin := ih h
      cases ps with
      | nil => simp at h
      | cons q qs =>
        rw [pyJoin_cons_of_ne_nil sep p (q :: qs) (by simp)]
        obtain ⟨a, b, hab⟩ := hin
        exact ⟨p ++ sep ++ a, b, by rw [← hab]; simp⟩

theorem eks_tag_infix_blob (tags : List (Str × Str)) (v : Str)
    (htag : (strL "eks:cluster-name", v) ∈ tags) :
    strL "eks" <:+: allTagsBlob tags := by
  have h1 : (strL "eks:cluster-name" ++ strL "=" ++ v) ∈
      tags.map (fun kv => kv.1 ++ strL "=" ++ kv.2) :=
    List.mem_map_of_mem _ htag
  have h2 := infix_of_mem_pyJoin (strL " ") _ _ h1
  have h3 : pyLower (strL "eks:cluster-name" ++ strL "=" ++ v) <:+: allTagsBlob tags := by
    unfold allTagsBlob pyLower
    exact h2.map _
  have h4 : strL "eks" <+: pyLower (strL "eks:cluster-name" ++ strL "=" ++ v) := by
    unfold pyLower
    rw [List.map_append, List.map_append]
    have hlow : (strL "eks:cluster-name").map Char.toLower = strL "eks:cluster-name" := by
      decide
    rw [hlow]
    exact List.IsPrefix.trans (by decide) (List.prefix_append _ _)
  exact List.IsInfix.trans h4.isInfix h3

/-- C3: `categorize_ec2_instances`.
Part (A) exhibits the failing input of the latent bug: a `running` instance
whose stored `name` is JSON `null` makes the code raise `AttributeError`
(`instance.get("name", "").lower()` returns the stored `None`), where the
spec says every running instance is placed in a bucket.
Part (B): whenever every running instance carries a string name, the three
buckets are exactly characterized, pairwise disjoint, their concatenation
is a permutation of the running instances, non-running instances appear in
no bucket, and any instance satisfying the EKS signal lands in the `eks`
bucket (EKS precedence over ECS).
Part (C): a running, string-named instance tagged with key
`eks:cluster-name` satisfies the EKS signal whatever its name, hence by
(B) is categorized `eks`, never `standalone`. -/
theorem c3_categorize_partition :
    (categorize_ec2_instances [⟨some (strL "running"), none, []⟩] [] [] = .error ()) ∧
    (∀ (ec2 : List Ec2Instance) (ecs : List EcsCluster) (eks : List EksCluster),
       (∀ i ∈ ec2, i.state = some (strL "running") → i.name ≠ none) →
       ∃ cats, categorize_ec2_instances ec2 ecs eks = .ok cats ∧
         cats.standalone = ec2.filter (inStandaloneBucket (eksPatterns eks) (ecsPatterns ecs)) ∧
         cats.ecs = ec2.filter (inEcsBucket (eksPatterns eks) (ecsPatterns ecs)) ∧
         cats.eks = ec2.filter (inEksBucket (eksPatterns eks)) ∧
         (∀ i, ¬ (i ∈ cats.standalone ∧ i ∈ cats.ecs)) ∧
         (∀ i, ¬ (i ∈ cats.standalone ∧ i ∈ cats.eks)) ∧
         (∀ i, ¬ (i ∈ cats.ecs ∧ i ∈ cats.eks)) ∧
         (cats.standalone ++ cats.ecs ++ cats.eks).Perm
           (ec2.filter (fun i => decide (i.state = some (strL "running")))) ∧
         (∀ i, i.state ≠ some (strL "running") →
            i ∉ cats.standalone ∧ i ∉ cats.ecs ∧ i ∉ cats.eks) ∧
         (∀ i ∈ ec2, inEksBucket (eksPatterns eks) i = true → i ∈ cats.eks)) ∧
    (∀ (i : Ec2Instance) (v : Str) (eks_pats : List Str),
       (strL "eks:cluster-name", v) ∈ i.tags →
       i.state = some (strL "running") → i.name ≠ none →
       inEksBucket eks_pats i = true) := by
  refine ⟨?_, ?_, ?_⟩
  · rfl
  · intro ec2 ecs eks hnames
    refine ⟨_, categorizeLoop_eq (eksPatterns eks) (ecsPatterns ecs) ec2 hnames,
      rfl, rfl, rfl, ?_, ?_, ?_, ?_, ?_, ?_⟩
    · intro i ⟨h1, h2⟩
      have f1 := (List.mem_filter.mp h1).2
      have f2 := (List.mem_filter.mp h2).2
      rw [inEcs_not_inStandalone _ _ _ f2] at f1
      exact Bool.false_ne_true f1
    · intro i ⟨h1, h2⟩
      have f1 := (List.mem_filter.mp h1).2
      have f2 := (List.mem_filter.mp h2).2
      rw [(inEks_not_inEcs _ _ _ f2).2] at f1
      exact Bool.false_ne_true f1
    · intro i ⟨h1, h2⟩
      have f1 := (List.mem_filter.mp h1).2
      have f2 := (List.mem_filter.mp h2).2
      rw [(inEks_not_inEcs _ _ _ f2).1] at f1
      exact Bool.false_ne_true f1
    · exact three_filter_perm _ _ ec2 hnames
    · intro i hi
      have hb := bucket_running (eksPatterns eks) (ecsPatterns ecs) i hi
      refine ⟨?_, ?_, ?_⟩ <;> intro hmem
      · have hmf := (List.mem_filter.mp hmem).2
        rw [hb.1] at hmf
        exact Bool.false_ne_true hmf
      · have hmf := (List.mem_filter.mp hmem).2
        rw [hb.2.1] at hmf
        exact Bool.false_ne_true hmf
      · have hmf := (List.mem_filter.mp hmem).2
        rw [hb.2.2] at hmf
        exact Bool.false_ne_true hmf
    · intro i hi hflag
      exact List.mem_filter.mpr ⟨hi, hflag⟩
  · intro i v eks_pats htag hrun hname
    unfold inEksBucket
    cases hn : i.name with
    | none => exact absurd hn hname
    | some nm =>
      simp only [hrun, hn, decide_True, Bool.true_and]
      unfold isEksInstance
      have hinf := eks_tag_infix_blob i.tags v htag
      have : pyIn (strL "eks") (allTagsBlob i.tags) = true := by
        unfold pyIn
        exact decide_eq_true hinf
      simp [this]

theorem c3_categorize_partition_witness :
    ∃ cats,
      categorize_ec2_instances
        [⟨some (strL "running"), some (strL "web-1"),
          [(strL "eks:cluster-name", strL "prod"),
           (strL "eks:nodegroup-name", strL "ng1")]⟩] [] [] = .ok cats ∧
      (⟨some (strL "running"), some (strL "web-1"),
        [(strL "eks:cluster-name", strL "prod"),
         (strL "eks:nodegroup-name", strL "ng1")]⟩ : Ec2Instance) ∈ cats.eks := by
  obtain ⟨cats, hok, -, -, -, -, -, -, -, -, hprec⟩ :=
    c3_categorize_partition.2.1
      [⟨some (strL "running"), some (strL "web-1"),
        [(strL "eks:cluster-name", strL "prod"),
         (strL "eks:nodegroup-name", strL "ng1")]⟩] [] []
      (by intro i hi; simp at hi; subst hi; simp)
  refine ⟨cats, hok, hprec _ (by simp) ?_⟩
  exact c3_categorize_partition.2.2 _ (strL "prod") (eksPatterns [])
    (by simp) rfl (by simp)

/-! ## Dict lemmas and the C2/C6 orchestrator theorems -/

theorem pyDictLookup_set_self (d : List (Str × JVal)) (k : Str) (v : JVal) :
    pyDictLookup (pyDictSet d k v) k = some v := by
  induction d with
  | nil =>
    simp [pyDictSet, pyDictLookup, List.find?]
  | cons kv d ih =>
    by_cases hk : kv.1 = k
    · have hany : ((kv :: d).any fun p => decide (p.1 = k)) = true := by
        simp [List.any_cons, hk]
      unfold pyDictSet
      rw [hany, if_pos rfl]
      unfold pyDictLookup
      rw [List.map_cons, if_pos hk, List.find?_cons_of_pos _ (by simp)]
      rfl
    · by_cases hd : (d.any fun p => decide (p.1 = k)) = true
      · have hany : ((kv :: d).any fun p => decide (p.1 = k)) = true := by
          simp only [List.any_cons, hd, Bool.or_true]
        have hset : pyDictSet d k v = d.map (fun p => if p.1 = k then (k, v) else p) := by
          unfold pyDictSet
          rw [hd, if_pos rfl]
        unfold pyDictSet
        rw [hany, if_pos rfl]
        unfold pyDictLookup
        rw [List.map_cons, if_neg hk, List.find?_cons_of_neg _ (by simp [hk])]
        have hih := ih
        rw [hset] at hih
        exact hih
      · have hany : ((kv :: d).any fun p => decide (p.1 = k)) = false := by
          simp only [List.any_cons, Bool.or_eq_false_iff]
          exact ⟨by simp [hk], Bool.eq_false_iff.mpr hd⟩
        have hset : pyDictSet d k v = d ++ [(k, v)] := by
          unfold pyDictSet
          rw [if_neg (by simp [hd])]
        unfold pyDictSet
        rw [hany]
        simp only [Bool.false_eq_true, if_false, List.cons_append]
        unfold pyDictLookup
        rw [List.find?_cons_of_neg _ (by simp [hk])]
        rw [show d ++ [(k, v)] = pyDictSet d k v from hset.symm]
        exact ih

theorem find?_map_set_other (d : List (Str × JVal)) (k : Str) (v : JVal)
    (k' : Str) (h : k' ≠ k) :
    List.find? (fun kv => decide (kv.1 = k'))
        (d.map (fun kv => if kv.1 = k then (k, v) else kv)) =
      List.find? (fun kv => decide (kv.1 = k')) d := by
  induction d with
  | nil => simp
  | cons kv d ih =>
    rw [List.map_cons]
    by_cases hk : kv.1 = k
    · rw [if_pos hk]
      rw [List.find?_cons_of_neg _ (by simp [Ne.symm h]),
          List.find?_cons_of_neg _ (by simp [hk, Ne.symm h])]
      exact ih
    · rw [if_neg hk]
      by_cases hk' : kv.1 = k'
      · rw [List.find?_cons_of_pos _ (by simp [hk']),
            List.find?_cons_of_pos _ (by simp [hk'])]
      · rw [List.find?_cons_of_neg _ (by simp [hk']),
            List.find?_cons_of_neg _ (by simp [hk'])]
        exact ih

theorem pyDictLookup_set_other (d : List (Str × JVal)) (k : Str) (v : JVal)
    (k' : Str) (h : k' ≠ k) :
    pyDictLookup (pyDictSet d k v) k' = pyDictLookup d k' := by
  unfold pyDictSet
  split
  · unfold pyDictLookup
    rw [find?_map_set_other d k v k' h]
  · unfold pyDictLookup
    rw [List.find?_append]
    have hnone : List.find? (fun kv => decide (kv.1 = k')) [(k, v)] = none := by
      simp [Ne.symm h]
    rw [hnone]
    simp

theorem mem_pyDictSet (d : List (Str × JVal)) (k : Str) (v : JVal) :
    ∀ kv' ∈ pyDictSet d k v, kv'.1 = k ∨ kv' ∈ d := by
  unfold pyDictSet
  split
  · intro kv' h
    rcases List.mem_map.mp h with ⟨kv, hkv, heq⟩
    by_cases hc : kv.1 = k
    · rw [if_pos hc] at heq
      subst heq
      left; rfl
    · rw [if_neg hc] at heq
      subst heq
      right; exact hkv
  · intro kv' h
    rcases List.mem_append.mp h with h | h
    · right; exact h
    · left
      simp at h
      rw [h]

theorem hasKey_of_lookup (d : List (Str × JVal)) (k : Str) (v : JVal)
    (h : pyDictLookup d k = some v) : pyDictHasKey d k = true := by
  unfold pyDictLookup at h
  unfold pyDictHasKey
  cases hf : d.find? (fun kv => decide (kv.1 = k)) with
  | none => rw [hf] at h; simp at h
  | some kv =>
    have := List.find?_some hf
    have hmem := List.mem_of_find?_eq_some hf
    apply List.any_eq_true.mpr
    exact ⟨kv, hmem, this⟩

theorem stageSimple_lookup_self (o : Except Unit JVal) (key : Str) (dflt : JVal)
    (d : List (Str × JVal)) :
    pyDictLookup (stageSimple true o key dflt d) key =
      some (match o with | .ok v => v | .error _ => dflt) := by
  unfold stageSimple
  cases o with
  | ok v => simp [pyDictLookup_set_self]
  | error e => simp [pyDictLookup_set_self]

theorem stageSimple_lookup_other (c : Bool) (o : Except Unit JVal) (key : Str)
    (dflt : JVal) (d : List (Str × JVal)) (k' : Str) (h : k' ≠ key) :
    pyDictLookup (stageSimple c o key dflt d) k' = pyDictLookup d k' := by
  unfold stageSimple
  cases c with
  | false => rfl
  | true =>
    cases o with
    | ok v => simp [pyDictLookup_set_other _ _ _ _ h]
    | error e => simp [pyDictLookup_set_other _ _ _ _ h]

theorem mem_stageSimple (c : Bool) (o : Except Unit JVal) (key : Str)
    (dflt : JVal) (d : List (Str × JVal)) :
    ∀ kv ∈ stageSimple c o key dflt d, kv.1 = key ∨ kv ∈ d := by
  unfold stageSimple
  cases c with
  | false => intro kv h; right; exact h
  | true =>
    cases o with
    | ok v => intro kv h; exact mem_pyDictSet d key v kv h
    | error e => intro kv h; exact mem_pyDictSet d key dflt kv h

theorem mem_stageVpcEc2 (vo eo : Except Unit JVal) (c1 c2 : Bool)
    (d : List (Str × JVal)) :
    ∀ kv ∈ stageVpcEc2 vo eo c1 c2 d,
      kv.1 = strL "vpcs" ∨ kv.1 = strL "ec2_instances" ∨ kv ∈ d := by
  unfold stageVpcEc2
  cases c1 with
  | false => intro kv h; right; right; exact h
  | true =>
    cases vo with
    | error e =>
      intro kv h
      rcases mem_pyDictSet _ _ _ kv h with h1 | h1
      · right; left; exact h1
      · rcases mem_pyDictSet _ _ _ kv h1 with h2 | h2
        · left; exact h2
        · right; right; exact h2
    | ok vpcs =>
      cases c2 with
      | false =>
        intro kv h
        simp only [if_false] at h
        rcases mem_pyDictSet _ _ _ kv h with h1 | h1
        · left; exact h1
        · right; right; exact h1
      | true =>
        cases eo with
        | ok insts =>
          intro kv h
          simp only [if_true] at h
          rcases mem_pyDictSet _ _ _ kv h with h1 | h1
          · right; left; exact h1
          · rcases mem_pyDictSet _ _ _ kv h1 with h2 | h2
            · left; exact h2
            · right; right; exact h2
        | error e =>
          intro kv h
          simp only [if_true] at h
          rcases mem_pyDictSet _ _ _ kv h with h1 | h1
          · right; left; exact h1
          · rcases mem_pyDictSet _ _ _ kv h1 with h2 | h2
            · left; exact h2
            · rcases mem_pyDictSet _ _ _ kv h2 with h3 | h3
              · left; exact h3
              · right; right; exact h3

theorem stageVpcEc2_lookup_other (vo eo : Except Unit JVal) (c1 c2 : Bool)
    (d : List (Str × JVal)) (k' : Str)
    (h1 : k' ≠ strL "vpcs") (h2 : k' ≠ strL "ec2_instances") :
    pyDictLookup (stageVpcEc2 vo eo c1 c2 d) k' = pyDictLookup d k' := by
  unfold stageVpcEc2
  cases c1 with
  | false => rfl
  | true =>
    cases vo with
    | error e =>
      simp [pyDictLookup_set_other _ _ _ _ h1, pyDictLookup_set_other _ _ _ _ h2]
    | ok vpcs =>
      cases c2 with
      | false => simp [pyDictLookup_set_other _ _ _ _ h1]
      | true =>
        cases eo with
        | ok insts =>
          simp [pyDictLookup_set_other _ _ _ _ h1, pyDictLookup_set_other _ _ _ _ h2]
        | error e =>
          simp [pyDictLookup_set_other _ _ _ _ h1, pyDictLookup_set_other _ _ _ _ h2]

theorem collect_region_keys (o : CollectorOutcomes) (region ts : Str)
    (services : List Str) :
    ∀ kv ∈ collect_region_resources o region ts services,
      kv.1 = strL "region" ∨ kv.1 = strL "collected_at" ∨
      kv.1 = strL "vpcs" ∨ kv.1 = strL "ec2_instances" ∨
      kv.1 = strL "ecs_clusters" ∨ kv.1 = strL "eks_clusters" ∨
      kv.1 = strL "rds" ∨ kv.1 = strL "elasticache" ∨
      kv.1 = strL "load_balancers" ∨ kv.1 = strL "elasticbeanstalk" ∨
      kv.1 = strL "redshift" := by
  intro kv h
  unfold collect_region_resources at h
  rcases mem_stageSimple _ _ _ _ _ kv h with h8 | h8
  · tauto
  rcases mem_stageSimple _ _ _ _ _ kv h8 with h7 | h7
  · tauto
  rcases mem_stageSimple _ _ _ _ _ kv h7 with h6 | h6
  · tauto
  rcases mem_stageSimple _ _ _ _ _ kv h6 with h5 | h5
  · tauto
  rcases mem_stageSimple _ _ _ _ _ kv h5 with h4 | h4
  · tauto
  rcases mem_stageSimple _ _ _ _ _ kv h4 with h3 | h3
  · tauto
  rcases mem_stageSimple _ _ _ _ _ kv h3 with h2 | h2
  · tauto
  rcases mem_stageVpcEc2 _ _ _ _ _ kv h2 with h1 | h1 | h1
  · tauto
  · tauto
  · simp only [List.mem_cons, List.mem_singleton] at h1
    rcases h1 with h0 | h0 | h0
    · left; rw [h0]
    · right; left; rw [h0]
    · simp at h0

theorem stageVpcEc2_lookup_vpcs (vo eo : Except Unit JVal) (c2 : Bool)
    (d : List (Str × JVal)) :
    pyDictLookup (stageVpcEc2 vo eo true c2 d) (strL "vpcs") =
      some (match vo with
        | .error _ => jarrL []
        | .ok vpcs =>
          if c2 then (match eo with | .ok _ => vpcs | .error _ => jarrL [])
          else vpcs) := by
  have hne : strL "vpcs" ≠ strL "ec2_instances" := by decide
  unfold stageVpcEc2
  cases vo with
  | error e =>
    simp only [if_true]
    rw [pyDictLookup_set_other _ _ _ _ hne, pyDictLookup_set_self]
  | ok vpcs =>
    cases c2 with
    | false =>
      simp only [if_true, Bool.false_eq_true, if_false]
      rw [pyDictLookup_set_self]
    | true =>
      cases eo with
      | ok insts =>
        simp only [if_true]
        rw [pyDictLookup_set_other _ _ _ _ hne, pyDictLookup_set_self]
      | error e =>
        simp only [if_true]
        rw [pyDictLookup_set_other _ _ _ _ hne, pyDictLookup_set_self]

theorem stageVpcEc2_lookup_ec2 (vo eo : Except Unit JVal)
    (d : List (Str × JVal)) :
    pyDictLookup (stageVpcEc2 vo eo true true d) (strL "ec2_instances") =
      some (match vo with
        | .error _ => jarrL []
        | .ok _ => match eo with | .ok insts => insts | .error _ => jarrL []) := by
  unfold stageVpcEc2
  cases vo with
  | error e =>
    simp only [if_true]
    rw [pyDictLookup_set_self]
  | ok vpcs =>
    cases eo with
    | ok insts =>
      simp only [if_true]
      rw [pyDictLookup_set_self]
    | error e =>
      simp only [if_true]
      rw [pyDictLookup_set_self]

theorem collect_region_resources_eq (o : CollectorOutcomes) (region ts : Str)
    (services : List Str) :
    collect_region_resources o region ts services =
      stageSimple (services.contains (strL "all") || services.contains (strL "redshift"))
        o.redshift (strL "redshift") redshiftDefault
      (stageSimple (services.contains (strL "all") || services.contains (strL "elasticbeanstalk"))
        o.elasticbeanstalk (strL "elasticbeanstalk") ebDefault
      (stageSimple (services.contains (strL "all") || services.contains (strL "elb"))
        o.load_balancers (strL "load_balancers") elbDefault
      (stageSimple (services.contains (strL "all") || services.contains (strL "elasticache"))
        o.elasticache (strL "elasticache") elasticacheDefault
      (stageSimple (services.contains (strL "all") || services.contains (strL "rds"))
        o.rds (strL "rds") rdsDefault
      (stageSimple (services.contains (strL "all") || services.contains (strL "eks"))
        o.eks_clusters (strL "eks_clusters") (jarrL [])
      (stageSimple (services.contains (strL "all") || services.contains (strL "ecs"))
        o.ecs_clusters (strL "ecs_clusters") (jarrL [])
      (stageVpcEc2 o.vpcs o.ec2_instances
        (services.contains (strL "all") || services.contains (strL "vpc") ||
          services.contains (strL "ec2"))
        (services.contains (strL "all") || services.contains (strL "ec2"))
        [(strL "region", JVal.jstr region),
         (strL "collected_at", JVal.jstr ts)]))))))) := rfl

/-- C2: for every selected service the region entry produced by
`collect_region_resources` contains that service's key, and when the
service's collector raised, the key is bound to the empty default of the
expected shape (`[]`, or the dict of empty lists for
rds/elasticache/load_balancers/elasticbeanstalk/redshift); a sub-collection
failure never removes a selected service's key. -/
theorem c2_region_defaults (o : CollectorOutcomes) (region ts : Str)
    (services : List Str) :
    ((services.contains (strL "all") || services.contains (strL "vpc") ||
        services.contains (strL "ec2")) = true →
      pyDictHasKey (collect_region_resources o region ts services) (strL "vpcs") = true ∧
      (o.vpcs = .error () →
        pyDictLookup (collect_region_resources o region ts services) (strL "vpcs") =
          some (jarrL []))) ∧
    ((services.contains (strL "all") || services.contains (strL "ec2")) = true →
      pyDictHasKey (collect_region_resources o region ts services)
        (strL "ec2_instances") = true ∧
      (o.ec2_instances = .error () →
        pyDictLookup (collect_region_resources o region ts services) (strL "vpcs") =
          some (jarrL []) ∧
        pyDictLookup (collect_region_resources o region ts services)
          (strL "ec2_instances") = some (jarrL [])) ∧
      (o.vpcs = .error () →
        pyDictLookup (collect_region_resources o region ts services)
          (strL "ec2_instances") = some (jarrL []))) ∧
    ((services.contains (strL "all") || services.contains (strL "ecs")) = true →
      pyDictHasKey (collect_region_resources o region ts services)
        (strL "ecs_clusters") = true ∧
      (o.ecs_clusters = .error () →
        pyDictLookup (collect_region_resources o region ts services)
          (strL "ecs_clusters") = some (jarrL []))) ∧
    ((services.contains (strL "all") || services.contains (strL "eks")) = true →
      pyDictHasKey (collect_region_resources o region ts services)
        (strL "eks_clusters") = true ∧
      (o.eks_clusters = .error () →
        pyDictLookup (collect_region_resources o region ts services)
          (strL "eks_clusters") = some (jarrL []))) ∧
    ((services.contains (strL "all") || services.contains (strL "rds")) = true →
      pyDictHasKey (collect_region_resources o region ts services) (strL "rds") = true ∧
      (o.rds = .error () →
        pyDictLookup (collect_region_resources o region ts services) (strL "rds") =
          some rdsDefault)) ∧
    ((services.contains (strL "all") || services.contains (strL "elasticache")) = true →
      pyDictHasKey (collect_region_resources o region ts services)
        (strL "elasticache") = true ∧
      (o.elasticache = .error () →
        pyDictLookup (collect_region_resources o region ts services)
          (strL "elasticache") = some elasticacheDefault)) ∧
    ((services.contains (strL "all") || services.contains (strL "elb")) = true →
      pyDictHasKey (collect_region_resources o region ts services)
        (strL "load_balancers") = true ∧
      (o.load_balancers = .error () →
        pyDictLookup (collect_region_resources o region ts services)
          (strL "load_balancers") = some elbDefault)) ∧
    ((services.contains (strL "all") || services.contains (strL "elasticbeanstalk")) = true →
      pyDictHasKey (collect_region_resources o region ts services)
        (strL "elasticbeanstalk") = true ∧
      (o.elasticbeanstalk = .error () →
        pyDictLookup (collect_region_resources o region ts services)
          (strL "elasticbeanstalk") = some ebDefault)) ∧
    ((services.contains (strL "all") || services.contains (strL "redshift")) = true →
      pyDictHasKey (collect_region_resources o region ts services)
        (strL "redshift") = true ∧
      (o.redshift = .error () →
        pyDictLookup (collect_region_resources o region ts services)
          (strL "redshift") = some redshiftDefault)) := by
  have c1_of_c2 :
      (services.contains (strL "all") || services.contains (strL "ec2")) = true →
      (services.contains (strL "all") || services.contains (strL "vpc") ||
        services.contains (strL "ec2")) = true := by
    cases hall : services.contains (strL "all") <;>
      cases hec2 : services.contains (strL "ec2") <;>
      simp_all
  refine ⟨?_, ?_, ?_, ?_, ?_, ?_, ?_, ?_, ?_⟩
  · intro hc1
    have hl : pyDictLookup (collect_region_resources o region ts services)
        (strL "vpcs") =
        some (match o.vpcs with
          | .error _ => jarrL []
          | .ok vpcs =>
            if (services.contains (strL "all") || services.contains (strL "ec2")) then
              (match o.ec2_instances with | .ok _ => vpcs | .error _ => jarrL [])
            else vpcs) := by
      rw [collect_region_resources_eq,
          stageSimple_lookup_other _ _ _ _ _ _ (by decide),
          stageSimple_lookup_other _ _ _ _ _ _ (by decide),
          stageSimple_lookup_other _ _ _ _ _ _ (by decide),
          stageSimple_lookup_other _ _ _ _ _ _ (by decide),
          stageSimple_lookup_other _ _ _ _ _ _ (by decide),
          stageSimple_lookup_other _ _ _ _ _ _ (by decide),
          stageSimple_lookup_other _ _ _ _ _ _ (by decide),
          hc1]
      exact stageVpcEc2_lookup_vpcs _ _ _ _
    constructor
    · cases ho : o.vpcs <;> rw [ho] at hl <;> exact hasKey_of_lookup _ _ _ hl
    · intro herr
      rw [herr] at hl
      exact hl
  · intro hc2
    have hc1 := c1_of_c2 hc2
    have hl : pyDictLookup (collect_region_resources o region ts services)
        (strL "ec2_instances") =
        some (match o.vpcs with
          | .error _ => jarrL []
          | .ok _ =>
            match o.ec2_instances with | .ok insts => insts | .error _ => jarrL []) := by
      rw [collect_region_resources_eq,
          stageSimple_lookup_other _ _ _ _ _ _ (by decide),
          stageSimple_lookup_other _ _ _ _ _ _ (by decide),
          stageSimple_lookup_other _ _ _ _ _ _ (by decide),
          stageSimple_lookup_other _ _ _ _ _ _ (by decide),
          stageSimple_lookup_other _ _ _ _ _ _ (by decide),
          stageSimple_lookup_other _ _ _ _ _ _ (by decide),
          stageSimple_lookup_other _ _ _ _ _ _ (by decide),
          hc1, hc2]
      exact stageVpcEc2_lookup_ec2 _ _ _
    have hlv : pyDictLookup (collect_region_resources o region ts services)
        (strL "vpcs") =
        some (match o.vpcs with
          | .error _ => jarrL []
          | .ok vpcs =>
            if (services.contains (strL "all") || services.contains (strL "ec2")) then
              (match o.ec2_instances with | .ok _ => vpcs | .error _ => jarrL [])
            else vpcs) := by
      rw [collect_region_resources_eq,
          stageSimple_lookup_other _ _ _ _ _ _ (by decide),
          stageSimple_lookup_other _ _ _ _ _ _ (by decide),
          stageSimple_lookup_other _ _ _ _ _ _ (by decide),
          stageSimple_lookup_other _ _ _ _ _ _ (by decide),
          stageSimple_lookup_other _ _ _ _ _ _ (by decide),
          stageSimple_lookup_other _ _ _ _ _ _ (by decide),
          stageSimple_lookup_other _ _ _ _ _ _ (by decide),
          hc1]
      exact stageVpcEc2_lookup_vpcs _ _ _ _
    refine ⟨?_, ?_, ?_⟩
    · cases ho : o.vpcs <;> rw [ho] at hl
      · cases he : o.ec2_instances <;> rw [he] at hl <;>
          exact hasKey_of_lookup _ _ _ hl
      · exact hasKey_of_lookup _ _ _ hl
    · intro herr
      rw [herr] at hl hlv
      rw [hc2] at hlv
      constructor
      · cases ho : o.vpcs <;> rw [ho] at hlv <;> exact hlv
      · cases ho : o.vpcs <;> rw [ho] at hl <;> exact hl
    · intro herr
      rw [herr] at hl
      exact hl
  · intro hc
    have hl : pyDictLookup (collect_region_resources o region ts services)
        (strL "ecs_clusters") =
        some (match o.ecs_clusters with | .ok v => v | .error _ => jarrL []) := by
      rw [collect_region_resources_eq,
          stageSimple_lookup_other _ _ _ _ _ _ (by decide),
          stageSimple_lookup_other _ _ _ _ _ _ (by decide),
          stageSimple_lookup_other _ _ _ _ _ _ (by decide),
          stageSimple_lookup_other _ _ _ _ _ _ (by decide),
          stageSimple_lookup_other _ _ _ _ _ _ (by decide),
          stageSimple_lookup_other _ _ _ _ _ _ (by decide),
          hc]
      exact stageSimple_lookup_self _ _ _ _
    exact ⟨hasKey_of_lookup _ _ _ hl, fun herr => by rw [herr] at hl; exact hl⟩
  · intro hc
    have hl : pyDictLookup (collect_region_resources o region ts services)
        (strL "eks_clusters") =
        some (match o.eks_clusters with | .ok v => v | .error _ => jarrL []) := by
      rw [collect_region_resources_eq,
          stageSimple_lookup_other _ _ _ _ _ _ (by decide),
          stageSimple_lookup_other _ _ _ _ _ _ (by decide),
          stageSimple_lookup_other _ _ _ _ _ _ (by decide),
          stageSimple_lookup_other _ _ _ _ _ _ (by decide),
          stageSimple_lookup_other _ _ _ _ _ _ (by decide),
          hc]
      exact stageSimple_lookup_self _ _ _ _
    exact ⟨hasKey_of_lookup _ _ _ hl, fun herr => by rw [herr] at hl; exact hl⟩
  · intro hc
    have hl : pyDictLookup (collect_region_resources o region ts services)
        (strL "rds") =
        some (match o.rds with | .ok v => v | .error _ => rdsDefault) := by
      rw [collect_region_resources_eq,
          stageSimple_lookup_other _ _ _ _ _ _ (by decide),
          stageSimple_lookup_other _ _ _ _ _ _ (by decide),
          stageSimple_lookup_other _ _ _ _ _ _ (by decide),
          stageSimple_lookup_other _ _ _ _ _ _ (by decide),
          hc]
      exact stageSimple_lookup_self _ _ _ _
    exact ⟨hasKey_of_lookup _ _ _ hl, fun herr => by rw [herr] at hl; exact hl⟩
  · intro hc
    have hl : pyDictLookup (collect_region_resources o region ts services)
        (strL "elasticache") =
        some (match o.elasticache with | .ok v => v | .error _ => elasticacheDefault) := by
      rw [collect_region_resources_eq,
          stageSimple_lookup_other _ _ _ _ _ _ (by decide),
          stageSimple_lookup_other _ _ _ _ _ _ (by decide),
          stageSimple_lookup_other _ _ _ _ _ _ (by decide),
          hc]
      exact stageSimple_lookup_self _ _ _ _
    exact ⟨hasKey_of_lookup _ _ _ hl, fun herr => by rw [herr] at hl; exact hl⟩
  · intro hc
    have hl : pyDictLookup (collect_region_resources o region ts services)
        (strL "load_balancers") =
        some (match o.load_balancers with | .ok v => v | .error _ => elbDefault) := by
      rw [collect_region_resources_eq,
          stageSimple_lookup_other _ _ _ _ _ _ (by decide),
          stageSimple_lookup_other _ _ _ _ _ _ (by decide),
          hc]
      exact stageSimple_lookup_self _ _ _ _
    exact ⟨hasKey_of_lookup _ _ _ hl, fun herr => by rw [herr] at hl; exact hl⟩
  · intro hc
    have hl : pyDictLookup (collect_region_resources o region ts services)
        (strL "elasticbeanstalk") =
        some (match o.elasticbeanstalk with | .ok v => v | .error _ => ebDefault) := by
      rw [collect_region_resources_eq,
          stageSimple_lookup_other _ _ _ _ _ _ (by decide),
          hc]
      exact stageSimple_lookup_self _ _ _ _
    exact ⟨hasKey_of_lookup _ _ _ hl, fun herr => by rw [herr] at hl; exact hl⟩
  · intro hc
    have hl : pyDictLookup (collect_region_resources o region ts services)
        (strL "redshift") =
        some (match o.redshift with | .ok v => v | .error _ => redshiftDefault) := by
      rw [collect_region_resources_eq, hc]
      exact stageSimple_lookup_self _ _ _ _
    exact ⟨hasKey_of_lookup _ _ _ hl, fun herr => by rw [herr] at hl; exact hl⟩

theorem c2_region_defaults_witness :
    pyDictHasKey (collect_region_resources
      ⟨.error (), .error (), .error (), .error (), .error (), .error (),
       .error (), .error (), .error ()⟩
      (strL "us-east-1") (strL "t") [strL "all"]) (strL "rds") = true ∧
    pyDictLookup (collect_region_resources
      ⟨.error (), .error (), .error (), .error (), .error (), .error (),
       .error (), .error (), .error ()⟩
      (strL "us-east-1") (strL "t") [strL "all"]) (strL "rds") = some rdsDefault ∧
    pyDictLookup (collect_region_resources
      ⟨.error (), .error (), .error (), .error (), .error (), .error (),
       .error (), .error (), .error ()⟩
      (strL "us-east-1") (strL "t") [strL "all"]) (strL "vpcs") = some (jarrL []) := by
  have h := c2_region_defaults
    ⟨.error (), .error (), .error (), .error (), .error (), .error (),
     .error (), .error (), .error ()⟩
    (strL "us-east-1") (strL "t") [strL "all"]
  exact ⟨(h.2.2.2.2.1 (by decide)).1, (h.2.2.2.2.1 (by decide)).2 rfl,
         (h.1 (by decide)).2 rfl⟩

/-- C6: a region entry produced by `collect_region_resources` never
contains an `"error"` key; the entry stored for a failed region holds
exactly the keys `region` and `error`; every region entry is one or the
other; and the diagram generators' region loop only processes entries
without an `"error"` key, so no resource is read from a failed region. -/
theorem c6_region_error_dichotomy :
    (∀ (o : CollectorOutcomes) (region ts : Str) (services : List Str),
       pyDictHasKey (collect_region_resources o region ts services)
         (strL "error") = false) ∧
    (∀ region err : Str,
       (error_region_entry region err).map Prod.fst =
         [strL "region", strL "error"]) ∧
    (∀ (region : Str) (outcome : Except Str (List (Str × JVal))),
       (∃ d, outcome = .ok d ∧ region_entry region outcome = d) ∨
       (∃ e, outcome = .error e ∧
          region_entry region outcome = error_region_entry region e)) ∧
    (∀ (regions : List (Str × List (Str × JVal)))
       (entry : Str × List (Str × JVal)),
       entry ∈ processed_regions regions →
       pyDictHasKey entry.2 (strL "error") = false) := by
  refine ⟨?_, ?_, ?_, ?_⟩
  · intro o region ts services
    have hkeys := collect_region_keys o region ts services
    unfold pyDictHasKey
    rw [List.any_eq_false]
    intro kv hkv
    rcases hkeys kv hkv with h | h | h | h | h | h | h | h | h | h | h <;>
      simp [h] <;> decide
  · intro region err
    rfl
  · intro region outcome
    cases outcome with
    | ok d => left; exact ⟨d, rfl, rfl⟩
    | error e => right; exact ⟨e, rfl, rfl⟩
  · intro regions entry hmem
    unfold processed_regions at hmem
    have hflag := (List.mem_filter.mp hmem).2
    simpa using hflag

theorem c6_region_error_dichotomy_witness :
    pyDictHasKey [(strL "region", JVal.jstr (strL "r2"))] (strL "error") = false := by
  have hp : processed_regions
      [(strL "r1", error_region_entry (strL "r1") (strL "boom")),
       (strL "r2", [(strL "region", JVal.jstr (strL "r2"))])] =
      [(strL "r2", [(strL "region", JVal.jstr (strL "r2"))])] := rfl
  exact c6_region_error_dichotomy.2.2.2
    [(strL "r1", error_region_entry (strL "r1") (strL "boom")),
     (strL "r2", [(strL "region", JVal.jstr (strL "r2"))])]
    ((strL "r2"), [(strL "region", JVal.jstr (strL "r2"))])
    (by rw [hp]; exact List.mem_singleton.mpr rfl)

/-! ## C7: JSON round-trip — support lemmas -/

theorem skipWs_cons_of_neg (c : Char) (s : Str) (h : isJsonWs c = false) :
    skipWs (c :: s) = c :: s := by
  simp [skipWs, List.dropWhile_cons, h]

theorem digitChar_isDigit (n : Nat) (h : n < 10) :
    (Char.ofNat (48 + n)).isDigit = true := by
  have hgen : ∀ m, m < 10 → (Char.ofNat (48 + m)).isDigit = true := by decide
  exact hgen n h

theorem digitChar_val (n : Nat) (h : n < 10) :
    (Char.ofNat (48 + n)).toNat - 48 = n := by
  have hgen : ∀ m, m < 10 → (Char.ofNat (48 + m)).toNat - 48 = m := by decide
  exact hgen n h

theorem natDigits_ne_nil (n : Nat) : natDigits n ≠ [] := by
  rw [natDigits]
  split
  · simp
  · simp

theorem natDigits_digits (n : Nat) : ∀ c ∈ natDigits n, c.isDigit = true := by
  induction n using natDigits.induct with
  | case1 n h =>
    rw [natDigits, if_pos h]
    intro c hc
    simp only [List.mem_singleton] at hc
    subst hc
    exact digitChar_isDigit n h
  | case2 n h ih =>
    rw [natDigits, if_neg h]
    intro c hc
    rcases List.mem_append.mp hc with h1 | h1
    · exact ih c h1
    · simp only [List.mem_singleton] at h1
      subst h1
      exact digitChar_isDigit (n % 10) (Nat.mod_lt _ (by omega))

theorem natDigits_val (n : Nat) :
    (natDigits n).foldl (fun a c => 10 * a + (c.toNat - 48)) 0 = n := by
  have key : ∀ n acc, (natDigits n).foldl (fun a c => 10 * a + (c.toNat - 48)) acc =
      acc * 10 ^ (natDigits n).length + n := by
    intro n
    induction n using natDigits.induct with
    | case1 n h =>
      intro acc
      rw [natDigits, if_pos h]
      simp [List.foldl_cons, digitChar_val n h]
      ring
    | case2 n h ih =>
      intro acc
      rw [natDigits, if_neg h]
      rw [List.foldl_append]
      rw [ih acc]
      simp [List.foldl_cons, digitChar_val (n % 10) (Nat.mod_lt _ (by omega))]
      have hmod : 10 * (acc * 10 ^ (natDigits (n / 10)).length + n / 10) + n % 10 =
          acc * 10 ^ ((natDigits (n / 10)).length + 1) + n := by
        rw [pow_succ]
        have := Nat.div_add_mod n 10
        ring_nf
        omega
      rw [hmod]
  have := key n 0
  simpa using this

theorem takeWhile_append_all (p : Char → Bool) (l1 l2 : Str)
    (h1 : ∀ c ∈ l1, p c = true)
    (h2 : ∀ c t, l2 = c :: t → p c = false) :
    (l1 ++ l2).takeWhile p = l1 ∧ (l1 ++ l2).dropWhile p = l2 := by
  induction l1 with
  | nil =>
    simp only [List.nil_append]
    cases hl : l2 with
    | nil => simp
    | cons c t =>
      have hc := h2 c t hl
      simp [List.takeWhile_cons, List.dropWhile_cons, hc]
  | cons a l1 ih =>
    have ha : p a = true := h1 a (List.mem_cons_self _ _)
    have ih' := ih (fun c hc => h1 c (List.mem_cons_of_mem _ hc))
    simp [List.takeWhile_cons, List.dropWhile_cons, ha, ih'.1, ih'.2]

theorem parseNat_natDigits (n : Nat) (rest : Str) (hsafe : digitSafe rest) :
    parseNat (natDigits n ++ rest) = some (n, rest) := by
  have hall := natDigits_digits n
  have h2 : ∀ c t, rest = c :: t → c.isDigit = false := by
    intro c t he
    subst he
    exact hsafe
  obtain ⟨ht, hd⟩ := takeWhile_append_all (fun c => c.isDigit) _ rest hall h2
  unfold parseNat
  rw [ht, hd]
  rw [if_neg (by simp [natDigits_ne_nil n])]
  rw [natDigits_val n]

theorem digit_ne_of_isDigit (c : Char) (h : c.isDigit = true) :
    isJsonWs c = false ∧ c ≠ 'n' ∧ c ≠ 't' ∧ c ≠ 'f' ∧ c ≠ '"' ∧
    c ≠ '[' ∧ c ≠ '\x7b' ∧ c ≠ '-' ∧ c ≠ ']' ∧ c ≠ '\x7d' ∧ c ≠ ',' := by
  refine ⟨?_, ?_, ?_, ?_, ?_, ?_, ?_, ?_, ?_, ?_, ?_⟩
  · unfold isJsonWs
    by_contra hcontra
    rw [Bool.not_eq_false] at hcontra
    simp only [Bool.or_eq_true, decide_eq_true_eq] at hcontra
    rcases hcontra with ((h1 | h1) | h1) | h1 <;> subst h1 <;> simp at h
  all_goals (intro he; subst he; simp at h)

theorem serVal_head (v : JVal) :
    ∃ c r', serVal v = c :: r' ∧ isJsonWs c = false ∧ c ≠ ']' ∧ c ≠ '\x7d' := by
  cases v with
  | null => refine ⟨'n', _, rfl, ?_, ?_, ?_⟩ <;> decide
  | jbool b =>
    cases b
    · refine ⟨'f', _, rfl, ?_, ?_, ?_⟩ <;> decide
    · refine ⟨'t', _, rfl, ?_, ?_, ?_⟩ <;> decide
  | jint n =>
    show ∃ c r', serInt n = c :: r' ∧ _
    unfold serInt
    by_cases h : n < 0
    · rw [if_pos h]
      refine ⟨'-', _, rfl, ?_, ?_, ?_⟩ <;> decide
    · rw [if_neg h]
      cases heq : natDigits n.toNat with
      | nil => exact absurd heq (natDigits_ne_nil _)
      | cons c r' =>
        have hd : c.isDigit = true :=
          natDigits_digits n.toNat c (by rw [heq]; exact List.mem_cons_self _ _)
        have hp := digit_ne_of_isDigit c hd
        exact ⟨c, r', rfl, hp.1, hp.2.2.2.2.2.2.2.2.1, hp.2.2.2.2.2.2.2.2.2.1⟩
  | jstr s => refine ⟨'"', _, rfl, ?_, ?_, ?_⟩ <;> decide
  | jarr a => refine ⟨'[', _, rfl, ?_, ?_, ?_⟩ <;> decide
  | jobj o => refine ⟨'\x7b', _, rfl, ?_, ?_, ?_⟩ <;> decide

theorem hexVal_hexDigitChar (x : Nat) (h : x < 16) :
    hexVal? (hexDigitChar x) = some x := by
  have hgen : ∀ y, y < 16 → hexVal? (hexDigitChar y) = some y := by decide
  exact hgen x h

theorem char_ofNat_toNat_lt32 (c : Char) (h : c.toNat < 32) :
    Char.ofNat c.toNat = c := by
  have h1 : ∀ t, t < 32 → (Char.ofNat t).toNat = t := by decide
  have h2 : (Char.ofNat c.toNat).toNat = c.toNat := h1 c.toNat h
  exact Char.ext (UInt32.ext h2)

theorem parseStrBody_ser (s : Str) (rest : Str) :
    parseStrBody ((s.map escChar).flatten ++ '"' :: rest) = some (s, rest) := by
  induction s with
  | nil =>
    simp only [List.map_nil, List.flatten_nil, List.nil_append]
    rw [parseStrBody]
    rw [if_pos rfl]
  | cons c cs ih =>
    simp only [List.map_cons, List.flatten_cons, List.append_assoc]
    by_cases h1 : c = '"'
    · subst h1
      rw [show escChar '"' = [ '\\', '"' ] from rfl]
      simp only [List.cons_append, List.nil_append]
      rw [parseStrBody, if_neg (by decide), if_pos rfl]
      rw [parseStrEsc, if_neg (by decide),
          show unescape? '"' = some '"' from rfl]
      simp [ih]
    · by_cases h2 : c = '\\'
      · subst h2
        rw [show escChar '\\' = [ '\\', '\\' ] from rfl]
        simp only [List.cons_append, List.nil_append]
        rw [parseStrBody, if_neg (by decide), if_pos rfl]
        rw [parseStrEsc, if_neg (by decide),
            show unescape? '\\' = some '\\' from rfl]
        simp [ih]
      · by_cases h3 : c = '\n'
        · subst h3
          rw [show escChar '\n' = [ '\\', 'n' ] from rfl]
          simp only [List.cons_append, List.nil_append]
          rw [parseStrBody, if_neg (by decide), if_pos rfl]
          rw [parseStrEsc, if_neg (by decide),
              show unescape? 'n' = some '\n' from rfl]
          simp [ih]
        · by_cases h4 : c = '\t'
          · subst h4
            rw [show escChar '\t' = [ '\\', 't' ] from rfl]
            simp only [List.cons_append, List.nil_append]
            rw [parseStrBody, if_neg (by decide), if_pos rfl]
            rw [parseStrEsc, if_neg (by decide),
                show unescape? 't' = some '\t' from rfl]
            simp [ih]
          · by_cases h5 : c = '\r'
            · subst h5
              rw [show escChar '\r' = [ '\\', 'r' ] from rfl]
              simp only [List.cons_append, List.nil_append]
              rw [parseStrBody, if_neg (by decide), if_pos rfl]
              rw [parseStrEsc, if_neg (by decide),
                  show unescape? 'r' = some '\r' from rfl]
              simp [ih]
            · by_cases h6 : c = '\x08'
              · subst h6
                rw [show escChar '\x08' = [ '\\', 'b' ] from rfl]
                simp only [List.cons_append, List.nil_append]
                rw [parseStrBody, if_neg (by decide), if_pos rfl]
                rw [parseStrEsc, if_neg (by decide),
                    show unescape? 'b' = some '\x08' from rfl]
                simp [ih]
              · by_cases h7 : c = '\x0c'
                · subst h7
                  rw [show escChar '\x0c' = [ '\\', 'f' ] from rfl]
                  simp only [List.cons_append, List.nil_append]
                  rw [parseStrBody, if_neg (by decide), if_pos rfl]
                  rw [parseStrEsc, if_neg (by decide),
                      show unescape? 'f' = some '\x0c' from rfl]
                  simp [ih]
                · by_cases h8 : c.toNat < 32
                  · rw [show escChar c =
                        '\\' :: 'u' :: '0' :: '0' ::
                          hexDigitChar (c.toNat / 16) ::
                          hexDigitChar (c.toNat % 16) :: [] by
                      unfold escChar
                      rw [if_neg h1, if_neg h2, if_neg h3, if_neg h4, if_neg h5,
                          if_neg h6, if_neg h7, if_pos h8]]
                    simp only [List.cons_append, List.nil_append]
                    rw [parseStrBody, if_neg (by decide), if_pos rfl]
                    rw [parseStrEsc, if_pos rfl]
                    rw [parseStrHex,
                        show hexVal? '0' = some 0 from rfl,
                        hexVal_hexDigitChar (c.toNat / 16) (by omega),
                        hexVal_hexDigitChar (c.toNat % 16) (by omega)]
                    have harith : (4096 * 0 + 256 * 0 + 16 * (c.toNat / 16) +
                        c.toNat % 16) = c.toNat := by omega
                    simp only [ih, Option.map_some]
                    rw [harith, char_ofNat_toNat_lt32 c h8]
                    rfl
                  · rw [show escChar c = [c] by
                      unfold escChar
                      rw [if_neg h1, if_neg h2, if_neg h3, if_neg h4, if_neg h5,
                          if_neg h6, if_neg h7, if_neg h8]]
                    simp only [List.cons_append, List.nil_append]
                    rw [parseStrBody, if_neg h1, if_neg h2]
                    simp [ih]

theorem costV_pos (v : JVal) : 1 ≤ costV v := by
  cases v <;> simp [costV]

mutual
theorem costV_le (v : JVal) : costV v ≤ (serVal v).length + 1 := by
  cases v with
  | null => simp [costV]
  | jbool b => simp [costV]
  | jint n => simp [costV]
  | jstr s => simp [costV]
  | jarr a =>
    cases a with
    | nil => simp [costV, costA]
    | cons v tl =>
      have h1 := costV_le v
      have h2 := costA_le tl
      have hlen : (serVal (.jarr (.cons v tl))).length =
          (serVal v).length + (serArrTl tl).length + 2 := by
        simp [serVal, serArr]
        omega
      simp only [costV, costA]
      omega
  | jobj o =>
    cases o with
    | nil => simp [costV, costO]
    | cons k v tl =>
      have h1 := costV_le v
      have h2 := costO_le tl
      have hlen : (serVal (.jobj (.cons k v tl))).length =
          (serStr k).length + (serVal v).length + (serObjTl tl).length + 3 := by
        simp [serVal, serObj]
        omega
      simp only [costV, costO]
      omega

theorem costA_le (a : JArr) : costA a ≤ (serArrTl a).length + 1 := by
  cases a with
  | nil => simp [costA]
  | cons v tl =>
    have h1 := costV_le v
    have h2 := costA_le tl
    have hlen : (serArrTl (.cons v tl)).length =
        (serVal v).length + (serArrTl tl).length + 1 := by
      simp [serArrTl]
    simp only [costA]
    omega

theorem costO_le (o : JObj) : costO o ≤ (serObjTl o).length + 1 := by
  cases o with
  | nil => simp [costO]
  | cons k v tl =>
    have h1 := costV_le v
    have h2 := costO_le tl
    have hlen : (serObjTl (.cons k v tl)).length =
        (serStr k).length + (serVal v).length + (serObjTl tl).length + 2 := by
      simp [serObjTl]
      omega
    simp only [costO]
    omega
end

theorem roundtrip_aux (fuel : Nat) :
    (∀ (v : JVal) (rest : Str), costV v ≤ fuel → digitSafe rest →
       parseVal fuel (serVal v ++ rest) = some (v, rest)) ∧
    (∀ (v : JVal) (tl : JArr) (rest : Str), costA (.cons v tl) ≤ fuel →
       parseArrItems fuel (serArr (.cons v tl) ++ ']' :: rest) =
         some (.cons v tl, rest)) ∧
    (∀ (k : Str) (v : JVal) (tl : JObj) (rest : Str), costO (.cons k v tl) ≤ fuel →
       parseObjItems fuel (serObj (.cons k v tl) ++ '\x7d' :: rest) =
         some (.cons k v tl, rest)) := by
  induction fuel with
  | zero =>
    refine ⟨?_, ?_, ?_⟩
    · intro v rest hc _
      have := costV_pos v
      omega
    · intro v tl rest hc
      simp [costA] at hc
    · intro k v tl rest hc
      simp [costO] at hc
  | succ f ih =>
    obtain ⟨ihV, ihA, ihO⟩ := ih
    refine ⟨?_, ?_, ?_⟩
    · intro v rest hcost hsafe
      cases v with
      | null =>
        rw [show serVal .null ++ rest = 'n' :: 'u' :: 'l' :: 'l' :: rest from rfl]
        rw [parseVal]
        simp [skipWs, isJsonWs, strL, List.isPrefixOf]
      | jbool b =>
        cases b with
        | false =>
          rw [show serVal (.jbool false) ++ rest =
              'f' :: 'a' :: 'l' :: 's' :: 'e' :: rest from rfl]
          rw [parseVal]
          simp [skipWs, isJsonWs, strL, List.isPrefixOf]
        | true =>
          rw [show serVal (.jbool true) ++ rest =
              't' :: 'r' :: 'u' :: 'e' :: rest from rfl]
          rw [parseVal]
          simp [skipWs, isJsonWs, strL, List.isPrefixOf]
      | jint n =>
        by_cases hneg : n < 0
        · have hser : serVal (.jint n) = '-' :: natDigits n.natAbs := by
            simp [serVal, serInt, hneg]
          rw [hser]
          rw [parseVal]
          simp only [List.cons_append]
          rw [skipWs_cons_of_neg '-' _ (by decide)]
          have habs : ((n.natAbs : Int)) = -n := Int.ofNat_natAbs_of_nonpos (by omega)
          simp [parseNat_natDigits n.natAbs rest hsafe, habs]
        · have hser : serVal (.jint n) = natDigits n.toNat := by
            simp [serVal, serInt, hneg]
          cases heq : natDigits n.toNat with
          | nil => exact absurd heq (natDigits_ne_nil _)
          | cons c r' =>
            have hd : c.isDigit = true :=
              natDigits_digits _ c (by rw [heq]; exact List.mem_cons_self _ _)
            obtain ⟨hws, hn2, ht2, hf2, hq2, hb2, hbr2, hm2, -, -, -⟩ :=
              digit_ne_of_isDigit c hd
            rw [hser, heq]
            rw [parseVal]
            simp only [List.cons_append]
            rw [skipWs_cons_of_neg c _ hws]
            have hback : c :: (r' ++ rest) = natDigits n.toNat ++ rest := by
              rw [heq]
              simp
            simp only [hn2, ht2, hf2, hq2, hb2, hbr2, hm2, if_false]
            simp [hn2, ht2, hf2, hq2, hb2, hbr2, hm2, hback,
              parseNat_natDigits n.toNat rest hsafe]
            omega
      | jstr s =>
        have hser : serVal (.jstr s) ++ rest =
            '"' :: ((s.map escChar).flatten ++ '"' :: rest) := by
          simp [serVal, serStr]
        rw [hser, parseVal]
        rw [skipWs_cons_of_neg '"' _ (by decide)]
        simp [parseStrBody_ser s rest]
      | jarr a =>
        cases a with
        | nil =>
          have hser : serVal (.jarr .nil) ++ rest = '[' :: ']' :: rest := by
            simp [serVal, serArr]
          rw [hser, parseVal]
          rw [skipWs_cons_of_neg '[' _ (by decide)]
          simp [skipWs_cons_of_neg ']' _ (by decide), headChar?]
        | cons v tl =>
          obtain ⟨c, r', hsv, hws, hbr, hbrc⟩ := serVal_head v
          have hcost2 : costA (.cons v tl) ≤ f := by
            simp only [costV] at hcost
            omega
          have harr := ihA v tl rest hcost2
          have hser : serVal (.jarr (.cons v tl)) ++ rest =
              '[' :: (serArr (.cons v tl) ++ ']' :: rest) := by
            simp [serVal]
          rw [hser, parseVal]
          rw [skipWs_cons_of_neg '[' _ (by decide)]
          have hskip : skipWs (serArr (.cons v tl) ++ ']' :: rest) =
              serArr (.cons v tl) ++ ']' :: rest := by
            rw [show serArr (.cons v tl) = serVal v ++ serArrTl tl from rfl, hsv]
            simp only [List.cons_append]
            exact skipWs_cons_of_neg c _ hws
          have hhead : headChar? (serArr (.cons v tl) ++ ']' :: rest) = some c := by
            rw [show serArr (.cons v tl) = serVal v ++ serArrTl tl from rfl, hsv]
            simp [headChar?]
          simp [hskip, hhead, hbr, harr]
      | jobj o =>
        cases o with
        | nil =>
          have hser : serVal (.jobj .nil) ++ rest = '\x7b' :: '\x7d' :: rest := by
            simp [serVal, serObj]
          rw [hser, parseVal]
          rw [skipWs_cons_of_neg '\x7b' _ (by decide)]
          simp [skipWs_cons_of_neg '\x7d' _ (by decide), headChar?]
        | cons k v tl =>
          have hcost2 : costO (.cons k v tl) ≤ f := by
            simp only [costV] at hcost
            omega
          have hobj := ihO k v tl rest hcost2
          have hser : serVal (.jobj (.cons k v tl)) ++ rest =
              '\x7b' :: (serObj (.cons k v tl) ++ '\x7d' :: rest) := by
            simp [serVal]
          rw [hser, parseVal]
          rw [skipWs_cons_of_neg '\x7b' _ (by decide)]
          have hskip : skipWs (serObj (.cons k v tl) ++ '\x7d' :: rest) =
              serObj (.cons k v tl) ++ '\x7d' :: rest := by
            rw [show serObj (.cons k v tl) = serStr k ++ ':' :: serVal v ++
                serObjTl tl from rfl]
            rw [show serStr k = '"' :: ((k.map escChar).flatten ++ [ '"' ]) from rfl]
            simp only [List.cons_append]
            exact skipWs_cons_of_neg '"' _ (by decide)
          have hhead : headChar? (serObj (.cons k v tl) ++ '\x7d' :: rest) =
              some '"' := by
            rw [show serObj (.cons k v tl) = serStr k ++ ':' :: serVal v ++
                serObjTl tl from rfl]
            rw [show serStr k = '"' :: ((k.map escChar).flatten ++ [ '"' ]) from rfl]
            simp [headChar?]
          simp [hskip, hhead, hobj]
    · intro v tl rest hcost
      have hv : costV v ≤ f := by
        simp only [costA] at hcost
        omega
      have hsafe2 : digitSafe (serArrTl tl ++ ']' :: rest) := by
        cases tl with
        | nil => exact (by decide : (']').isDigit = false)
        | cons v2 tl2 => exact (by decide : (',').isDigit = false)
      rw [parseArrItems]
      rw [show serArr (.cons v tl) ++ ']' :: rest =
          serVal v ++ (serArrTl tl ++ ']' :: rest) by simp [serArr]]
      rw [ihV v _ hv hsafe2]
      cases tl with
      | nil =>
        simp [serArrTl, skipWs_cons_of_neg ']' _ (by decide)]
      | cons v2 tl2 =>
        have hcost3 : costA (.cons v2 tl2) ≤ f := by
          simp only [costA] at hcost ⊢
          omega
        have hrec := ihA v2 tl2 rest hcost3
        have hrec2 : parseArrItems f
            (serVal v2 ++ (serArrTl tl2 ++ ']' :: rest)) =
            some (.cons v2 tl2, rest) := by
          rw [show serVal v2 ++ (serArrTl tl2 ++ ']' :: rest) =
              serArr (.cons v2 tl2) ++ ']' :: rest by simp [serArr]]
          exact hrec
        simp [serArrTl, skipWs_cons_of_neg ',' _ (by decide), hrec2]
    · intro k v tl rest hcost
      have hv : costV v ≤ f := by
        simp only [costO] at hcost
        omega
      have hsafe2 : digitSafe (serObjTl tl ++ '\x7d' :: rest) := by
        cases tl with
        | nil => exact (by decide : ('\x7d').isDigit = false)
        | cons k2 v2 tl2 => exact (by decide : (',').isDigit = false)
      rw [parseObjItems]
      rw [show serObj (.cons k v tl) ++ '\x7d' :: rest =
          '"' :: (((k.map escChar).flatten ++ '"' ::
            (':' :: (serVal v ++ (serObjTl tl ++ '\x7d' :: rest))))) by
        rw [show serObj (.cons k v tl) = serStr k ++ ':' :: serVal v ++
            serObjTl tl from rfl]
        rw [show serStr k = '"' :: ((k.map escChar).flatten ++ [ '"' ]) from rfl]
        simp]
      rw [skipWs_cons_of_neg '"' _ (by decide)]
      have hkey := parseStrBody_ser k
        (':' :: (serVal v ++ (serObjTl tl ++ '\x7d' :: rest)))
      have hval := ihV v (serObjTl tl ++ '\x7d' :: rest) hv hsafe2
      cases tl with
      | nil =>
        simp only [serObjTl, List.nil_append] at hkey hval ⊢
        simp [hkey, hval, skipWs_cons_of_neg ':' _ (by decide),
          skipWs_cons_of_neg '\x7d' _ (by decide)]
      | cons k2 v2 tl2 =>
        have hcost3 : costO (.cons k2 v2 tl2) ≤ f := by
          simp only [costO] at hcost ⊢
          omega
        have hrec := ihO k2 v2 tl2 rest hcost3
        have hrec2 : parseObjItems f
            (serStr k2 ++ ':' :: serVal v2 ++ (serObjTl tl2 ++ '\x7d' :: rest)) =
            some (.cons k2 v2 tl2, rest) := by
          rw [show serStr k2 ++ ':' :: serVal v2 ++ (serObjTl tl2 ++ '\x7d' :: rest) =
              serObj (.cons k2 v2 tl2) ++ '\x7d' :: rest by simp [serObj]]
          exact hrec
        simp only [serObjTl, List.cons_append, List.append_assoc] at hkey hval hrec2 ⊢
        simp [hkey, hval, hrec2, skipWs_cons_of_neg ':' _ (by decide),
          skipWs_cons_of_neg ',' _ (by decide)]

theorem json_dumps_loads (v : JVal) : json_loads (json_dumps v) = some v := by
  unfold json_loads json_dumps
  have h := (roundtrip_aux ((serVal v).length + 1)).1 v []
    (by have := costV_le v; omega) trivial
  rw [show serVal v ++ [] = serVal v by simp] at h
  rw [h]
  simp [skipWs]

/-- C7: serializing the inventory document to JSON and parsing it back
yields the original nested structure — for every modelled JSON value, and
in particular for the inventory document built from the orchestrator's
metadata and per-region entries, and for every `VPCModel.to_dict` /
`SubnetModel.to_dict` payload. -/
theorem c7_json_roundtrip :
    (∀ v : JVal, json_loads (json_dumps v) = some v) ∧
    (∀ (meta : InventoryMetadata) (regions : List (Str × List (Str × JVal))),
       json_loads (json_dumps (inventory_doc meta regions)) =
         some (inventory_doc meta regions)) ∧
    (∀ m : VPCModel, json_loads (json_dumps (VPCModel.to_dict m)) =
       some (VPCModel.to_dict m)) ∧
    (∀ m : SubnetModel, json_loads (json_dumps (SubnetModel.to_dict m)) =
       some (SubnetModel.to_dict m)) :=
  ⟨json_dumps_loads,
   fun meta regions => json_dumps_loads (inventory_doc meta regions),
   fun m => json_dumps_loads (VPCModel.to_dict m),
   fun m => json_dumps_loads (SubnetModel.to_dict m)⟩

end AwsInv